import Mathlib

/-!
# dnsproxy: query resolution and failover engine

A shallow embedding of `pkg/server/handler.go` and `pkg/hosts/hostsfile.go`.

Go strings are `String`; slices are `List`; a runtime fault (slice index out
of range) is the `error` branch of `Except Fault`.  External collaborators
(the wire client, the cache store, the middleware hook, the file system) are
explicit oracles, indexed by the number of collaborator calls made so far,
and every call is recorded in a trace of `Event`s.
-/

set_option autoImplicit false

namespace DnsProxy

/-! ## Data model (`pkg/config/config.go`) -/

/-- Go `config.Authority`; `Timeout` is a `time.Duration` in nanoseconds. -/
structure Authority where
  Address : String
  DomainName : String
  Timeout : Int
  deriving DecidableEq, Repr

/-- Go `strings.HasSuffix(s, suffix)`:
`len(s) >= len(suffix) && s[len(s)-len(suffix):] == suffix`, on the characters
of the strings (for well-formed UTF-8 the same as on their bytes). -/
def HasSuffix (s suffix : String) : Bool :=
  decide (s.data.length ≥ suffix.data.length) &&
    decide (s.data.drop (s.data.length - suffix.data.length) = suffix.data)

/-! ## Authority selector (`handler.go`, `LeadAuthority`) -/

/-- The first loop of `LeadAuthority`: append every authority with a
non-empty `DomainName` that is a suffix of `url`. -/
def leadSuffixLoop (url : String) (authorities : List Authority) (results : List Authority) :
    List Authority :=
  authorities.foldl
    (fun results authority =>
      if authority.DomainName ≠ "" ∧ HasSuffix url authority.DomainName = true then
        results ++ [authority]
      else results)
    results

/-- The second loop of `LeadAuthority`: append every authority whose
`DomainName` is empty. -/
def leadDefaultLoop (authorities : List Authority) (results : List Authority) :
    List Authority :=
  authorities.foldl
    (fun results authority =>
      if authority.DomainName = "" then results ++ [authority] else results)
    results

/-- Go `DnsHandler.LeadAuthority`; `authorities` is `handler.Config.Authorities`.
The error is the formatted message of `fmt.Errorf`. -/
def LeadAuthority (authorities : List Authority) (url : String) :
    Except String (List Authority) :=
  let results := leadSuffixLoop url authorities []
  let results :=
    if results.length = 0 then leadDefaultLoop authorities results else results
  if results.length = 0 then
    Except.error ("unable to find authority for " ++ url)
  else
    Except.ok results

/-- The suffix tier of a configuration for a domain. -/
def suffixTier (authorities : List Authority) (d : String) : List Authority :=
  authorities.filter (fun a => decide (a.DomainName ≠ "" ∧ HasSuffix d a.DomainName = true))

/-- The default tier of a configuration. -/
def defaultTier (authorities : List Authority) : List Authority :=
  authorities.filter (fun a => decide (a.DomainName = ""))


/-! ## DNS message model (the wire library `miekg/dns`, at its interface) -/

def TypeA : Nat := 1
def TypePTR : Nat := 12
def TypeTXT : Nat := 16
def TypeAAAA : Nat := 28
def TypeOPT : Nat := 41
def TypeANY : Nat := 255
def ClassINET : Nat := 1
def ClassCHAOS : Nat := 3
def RcodeSuccess : Nat := 0
def RcodeFormatError : Nat := 1
def RcodeServerFailure : Nat := 2
def RcodeNameError : Nat := 3
def RcodeNotImplemented : Nat := 4
def RcodeRefused : Nat := 5
def OpcodeQuery : Nat := 0
def DefaultMsgSize : Nat := 4096

/-- Go `net.IP`, a byte slice; the nil slice is `[]`. -/
abbrev IP := List Nat

/-- Go `dns.Question`. -/
structure Question where
  Name : String
  Qtype : Nat
  Qclass : Nat
  deriving DecidableEq, Repr

/-- Go `dns.RR_Header` (without `Rdlength`, which the packer fills in). -/
structure RR_Header where
  Name : String
  Rrtype : Nat
  Class : Nat
  Ttl : Nat
  deriving DecidableEq, Repr

/-- The payload of a resource record: the four kinds the handler builds, the
EDNS0 pseudo-record, and any other record received from upstream. -/
inductive RData where
  | A (A : IP)
  | AAAA (AAAA : IP)
  | PTR (Ptr : String)
  | TXT (Txt : List String)
  | OPT
  | Other (rdata : List Nat)
  deriving DecidableEq, Repr

/-- Go `dns.RR`. -/
structure RR where
  Hdr : RR_Header
  Data : RData
  deriving DecidableEq, Repr

/-- Go `dns.Msg`: the header bits the handler reads or writes and the four
sections. -/
structure Msg where
  Id : Nat
  Response : Bool
  Opcode : Nat
  Authoritative : Bool
  RecursionDesired : Bool
  CheckingDisabled : Bool
  Rcode : Nat
  Question : List Question
  Answer : List RR
  Ns : List RR
  Extra : List RR
  deriving DecidableEq, Repr

/-- Go `new(dns.Msg)`: the zero value. -/
def Msg.new : Msg :=
  { Id := 0, Response := false, Opcode := 0, Authoritative := false,
    RecursionDesired := false, CheckingDisabled := false, Rcode := 0,
    Question := [], Answer := [], Ns := [], Extra := [] }

/-- Library `(*dns.Msg).SetReply`: copies the id and opcode, sets the response
bit, copies `rd` and `cd` for a standard query, resets the response code and
keeps the first question only. -/
def Msg.SetReply (m request : Msg) : Msg :=
  let m := { m with Id := request.Id, Response := true, Opcode := request.Opcode }
  let m :=
    if m.Opcode = OpcodeQuery then
      { m with RecursionDesired := request.RecursionDesired,
               CheckingDisabled := request.CheckingDisabled }
    else m
  let m := { m with Rcode := RcodeSuccess }
  match request.Question with
  | [] => m
  | q :: _ => { m with Question := [q] }

/-- Library `(*dns.Msg).SetRcode`: `SetReply` followed by the response code. -/
def Msg.SetRcode (m request : Msg) (rcode : Nat) : Msg :=
  { Msg.SetReply m request with Rcode := rcode }

/-- Library `(*dns.Msg).SetEdns0(udpsize, do)`: appends an OPT pseudo-record to
the additional section; the UDP size is carried in the class field and the
`DO` bit is bit 15 of the TTL field. -/
def Msg.SetEdns0 (m : Msg) (udpsize : Nat) (do_ : Bool) : Msg :=
  let e : RR :=
    { Hdr := { Name := ".", Rrtype := TypeOPT, Class := udpsize,
               Ttl := if do_ then 32768 else 0 },
      Data := RData.OPT }
  { m with Extra := m.Extra ++ [e] }

/-- A runtime fault of the Go program. -/
inductive Fault where
  | indexOutOfRange
  | nilDereference
  deriving DecidableEq, Repr

/-! ## Upstream exchanger (`handler.go`, `exchange`) -/

/-- What `client.Exchange` returns: `(resp, rtt, nil)` with a response, or an
error together with whatever response the client had (possibly none). -/
inductive Outcome where
  | answer (resp : Msg)
  | failure (resp : Option Msg) (err : String)
  deriving DecidableEq, Repr

/-- The `resp` result of `client.Exchange`. -/
def Outcome.resp : Outcome → Option Msg
  | Outcome.answer r => some r
  | Outcome.failure r _ => r

/-- The `err` result of `client.Exchange`. -/
def Outcome.err : Outcome → Option String
  | Outcome.answer _ => none
  | Outcome.failure _ e => some e

/-- The upstream: the result of the collaborator call number `t` when it is
`(&dns.Client{Net: netProtocol, Timeout: authority.Timeout}).Exchange(req,
authority.Address)`. -/
abbrev Upstream := Nat → Msg → Authority → String → Outcome

/-- The `switch resp.Rcode` of `exchange`: the five codes on which it returns. -/
def isTerminal (rcode : Nat) : Bool :=
  rcode = RcodeSuccess || rcode = RcodeNameError || rcode = RcodeFormatError ||
    rcode = RcodeRefused || rcode = RcodeNotImplemented

/-- An attempt returns from `exchange`: no error and a terminal code. -/
def Outcome.terminal : Outcome → Bool
  | Outcome.answer r => isTerminal r.Rcode
  | Outcome.failure _ _ => false

/-- One upstream attempt: the cursor, the authority it selected, the result. -/
structure Attempt where
  nsIdx : Nat
  authority : Authority
  out : Outcome
  deriving DecidableEq, Repr

/-- The results `(resp, err)` of `exchange` and the attempts it made, in
order. -/
structure Exchanged where
  resp : Option Msg
  err : Option String
  attempts : List Attempt
  deriving DecidableEq, Repr

/-- The `for try := 1; try <= maxTry+1; try++` loop of `exchange`; `remaining`
is the number of iterations left, `maxTry + 2 - try`.  `resp` and `err` are the
named results, `t` counts the collaborator calls made so far. -/
def exchangeLoop (up : Upstream) (req : Msg) (authorities : List Authority)
    (netProtocol : String) (maxTry : Nat) :
    (remaining : Nat) → (nsIdx : Nat) → (resp : Option Msg) → (err : Option String) →
      (t : Nat) → (attempts : List Attempt) → Except Fault Exchanged
  | 0, _, resp, err, _, attempts =>
      Except.ok { resp := resp, err := err, attempts := attempts }
  | remaining + 1, nsIdx, _, _, t, attempts =>
      match authorities[nsIdx]? with
      | none => Except.error Fault.indexOutOfRange
      | some authority =>
        let out := up t req authority netProtocol
        let resp := out.resp
        let err := out.err
        let attempts := attempts ++ [{ nsIdx := nsIdx, authority := authority, out := out }]
        match out with
        | Outcome.answer r =>
            if isTerminal r.Rcode then
              Except.ok { resp := resp, err := err, attempts := attempts }
            else
              exchangeLoop up req authorities netProtocol maxTry remaining
                (if maxTry - 1 > nsIdx then nsIdx + 1 else 0) resp err (t + 1) attempts
        | Outcome.failure _ _ =>
            exchangeLoop up req authorities netProtocol maxTry remaining
              (if maxTry - 1 > nsIdx then nsIdx + 1 else 0) resp err (t + 1) attempts

/-- Go `DnsHandler.exchange`: `nsIdx := 0`, `maxTry := len(authorities)`, then
the loop over `try = 1 .. maxTry+1`. -/
def exchange (up : Upstream) (req : Msg) (authorities : List Authority)
    (netProtocol : String) (t : Nat) : Except Fault Exchanged :=
  exchangeLoop up req authorities netProtocol authorities.length
    (authorities.length + 1) 0 none none t []

/-- The authority that attempt number `i` (0-based) addresses when every
earlier attempt failed: index `i mod n`. -/
def authorityAt (authorities : List Authority) (i : Nat) : Authority :=
  authorities.getD (i % authorities.length) { Address := "", DomainName := "", Timeout := 0 }

/-- The result of attempt number `i` (0-based) of an exchange that starts at
collaborator call `t`. -/
def outcomeAt (up : Upstream) (req : Msg) (authorities : List Authority)
    (netProtocol : String) (t i : Nat) : Outcome :=
  up (t + i) req (authorityAt authorities i) netProtocol

/-- Attempt number `i` (0-based) as `exchange` records it. -/
def attemptAt (up : Upstream) (req : Msg) (authorities : List Authority)
    (netProtocol : String) (t i : Nat) : Attempt :=
  { nsIdx := i % authorities.length, authority := authorityAt authorities i,
    out := outcomeAt up req authorities netProtocol t i }

/-! ## Collaborators of the query resolver -/

/-- Library functions the handler calls on strings and questions:
`strings.ToLower` and `dns.Question.String`. -/
structure Lib where
  ToLower : String → String
  QuestionString : Question → String

/-- Go interface `server.Hostfile`.  The argument `t` is the number of
collaborator calls made so far, so that an implementation may change its table
between calls (the host table is reloaded in the background). -/
structure Hostfile where
  FindHosts : Nat → String → List IP × Option String
  FindReverse : Nat → String → String × Option String

/-- Go `server.Middleware`, a function value that may keep state of its own:
`t` is the number of collaborator calls made so far. -/
abbrev Middleware := Nat → Question → String → List RR × Option String

/-- Go `server.DnsHandler`: the configuration fields the handler reads, the
host table, the version string and the optional middleware (`none` is the nil
function value). -/
structure DnsHandler where
  Authorities : List Authority
  CacheTTL : Int
  hosts : Hostfile
  version : String
  middleware : Option Middleware

/-- What surrounds the handler: the library functions, the upstream, and for
the response cache whether an entry stored under a key is still held and not
expired at collaborator call `t` (expiry and eviction depend on wall-clock
time and on the size bound, which are outside the handler). -/
structure World where
  lib : Lib
  up : Upstream
  cacheLive : Nat → String → Bool

/-- The contents of `handler.rcache`: the values set so far, most recent
first.  A value is a `*dns.Msg`, possibly nil. -/
abbrev Cache := List (String × Option Msg)

/-- A call of a collaborator, as recorded in the trace. -/
inductive Event where
  | middleware (question : Question) (netProtocol : String)
  | findHosts (name : String)
  | findReverse (name : String)
  | cacheFetch (key : String)
  | exchange (req : Msg) (attempts : List Attempt)
  | cacheSet (key : String) (value : Option Msg)
  deriving DecidableEq, Repr

/-- The state carried through `ResolveDnsQuery`: the reply under
construction, the number of collaborator calls made, the cache contents and
the trace. -/
structure Loop where
  dnsResp : Msg
  t : Nat
  cache : Cache
  events : List Event
  deriving DecidableEq, Repr

/-- How an iteration of the loop over the questions ends: `continue` (or the
end of the body), or `break`. -/
inductive Flow where
  | next
  | stop
  deriving DecidableEq, Repr

/-- The result of a pipeline stage: the question is resolved (`continue`), or
control falls through to the next stage. -/
inductive Stage where
  | done (s : Loop)
  | pass (s : Loop)
  deriving DecidableEq, Repr

/-! ## Query resolver (`handler.go`) -/

/-- Go `net.IP.To4`: the 4-byte form of an IPv4 address, or nil. -/
def IP.To4 (ip : IP) : IP :=
  if ip.length = 4 then ip
  else if ip.length = 16 ∧ (ip.take 10).all (fun b => b = 0) = true ∧
      ip[10]? = some 255 ∧ ip[11]? = some 255 then ip.drop 12
  else []

/-- Go `net.IP.To16`: the 16-byte form of an address, or nil. -/
def IP.To16 (ip : IP) : IP :=
  if ip.length = 4 then [0, 0, 0, 0, 0, 0, 0, 0, 0, 0, 255, 255] ++ ip
  else if ip.length = 16 then ip
  else []

/-- The loop body of `AddressRecords`: the record, if any, for one address. -/
def addressRecord (q : Question) (ip : IP) : List RR :=
  if IP.To4 ip ≠ [] ∧ (q.Qtype = TypeA ∨ q.Qtype = TypeANY) then
    [{ Hdr := { Name := q.Name, Rrtype := TypeA, Class := ClassINET, Ttl := 10 },
       Data := RData.A (IP.To4 ip) }]
  else if IP.To4 ip = [] ∧ (q.Qtype = TypeAAAA ∨ q.Qtype = TypeANY) then
    [{ Hdr := { Name := q.Name, Rrtype := TypeAAAA, Class := ClassINET, Ttl := 10 },
       Data := RData.AAAA (IP.To16 ip) }]
  else []

/-- Go `DnsHandler.AddressRecords`. -/
def AddressRecords (h : DnsHandler) (t : Nat) (q : Question) (name : String) :
    List RR × Option String :=
  match h.hosts.FindHosts t name with
  | (_, some err) => ([], some err)
  | (results, none) =>
      (results.foldl (fun records ip => records ++ addressRecord q ip) [], none)

/-- Go `DnsHandler.PTRRecords`. -/
def PTRRecords (w : World) (h : DnsHandler) (t : Nat) (q : Question) :
    List RR × Option String :=
  let name := w.lib.ToLower q.Name
  match h.hosts.FindReverse t name with
  | (_, some err) => ([], some err)
  | (result, none) =>
      if result ≠ "" then
        ([{ Hdr := { Name := q.Name, Rrtype := TypePTR, Class := ClassINET, Ttl := 10 },
            Data := RData.PTR result }], none)
      else ([], none)

/-- Stage 1 of the loop body of `ResolveDnsQuery`: the middleware hook. -/
def middlewareStage (h : DnsHandler) (netProtocol : String) (question : Question)
    (s : Loop) : Stage :=
  match h.middleware with
  | none => Stage.pass s
  | some mw =>
      let (records, err) := mw s.t question netProtocol
      let s := { s with t := s.t + 1,
                        events := s.events ++ [Event.middleware question netProtocol] }
      if err = none ∧ records.length > 0 then
        Stage.done { s with dnsResp := { s.dnsResp with Answer := s.dnsResp.Answer ++ records } }
      else Stage.pass s

/-- Stage 2: the host table, for A, AAAA and ANY questions. -/
def hostsStage (h : DnsHandler) (question : Question) (name : String) (s : Loop) : Stage :=
  if question.Qtype = TypeA ∨ question.Qtype = TypeAAAA ∨ question.Qtype = TypeANY then
    let (records, _) := AddressRecords h s.t question name
    let s := { s with t := s.t + 1, events := s.events ++ [Event.findHosts name] }
    if records.length > 0 then
      Stage.done { s with dnsResp := { s.dnsResp with Answer := s.dnsResp.Answer ++ records } }
    else Stage.pass s
  else Stage.pass s

/-- Stage 3: the reverse lookup.  The condition is that of line 117 of
`handler.go`, where `&&` binds tighter than `||`. -/
def reverseStage (w : World) (h : DnsHandler) (question : Question) (name : String)
    (s : Loop) : Stage :=
  if (question.Qtype = TypePTR ∧ HasSuffix name ".in-addr.arpa." = true) ∨
      HasSuffix name ".ip6.arpa." = true then
    let (records, err) := PTRRecords w h s.t question
    let s := { s with t := s.t + 1,
                      events := s.events ++ [Event.findReverse (w.lib.ToLower question.Name)] }
    if err = none ∧ records.length > 0 then
      Stage.done { s with dnsResp := { s.dnsResp with Answer := s.dnsResp.Answer ++ records } }
    else Stage.pass s
  else Stage.pass s

/-- Stage 4: the CHAOS class. -/
def chaosStage (h : DnsHandler) (question : Question) (name : String) (s : Loop) : Stage :=
  if question.Qclass = ClassCHAOS then
    let dnsResp := { s.dnsResp with Authoritative := true }
    let dnsResp :=
      if question.Qtype = TypeTXT then
        if name = "version.bind." ∨ name = "version.Server." then
          { dnsResp with Answer := dnsResp.Answer ++
              [{ Hdr := { Name := question.Name, Rrtype := TypeTXT, Class := ClassCHAOS,
                          Ttl := 0 },
                 Data := RData.TXT [h.version] }] }
        else if name = "hostname.bind." ∨ name = "id.Server." then
          { dnsResp with Answer := dnsResp.Answer ++
              [{ Hdr := { Name := question.Name, Rrtype := TypeTXT, Class := ClassCHAOS,
                          Ttl := 0 },
                 Data := RData.TXT ["localhost"] }] }
        else dnsResp
      else dnsResp
    Stage.done { s with dnsResp := dnsResp }
  else Stage.pass s

/-- The request that the producer sends upstream: a copy of the request with
the one question, no answers, recursion-desired cleared and EDNS0 set. -/
def upstreamRequest (req : Msg) (question : Question) : Msg :=
  Msg.SetEdns0
    { req with Question := [question], Answer := [], RecursionDesired := false }
    DefaultMsgSize true

/-- The producer closure passed to `rcache.Fetch`: one `exchange`, whose error
is wrapped. -/
def producer (w : World) (req : Msg) (authorities : List Authority) (netProtocol : String)
    (question : Question) (s : Loop) : Except Fault (Except String (Option Msg) × Loop) :=
  let reqCopy := upstreamRequest req question
  match exchange w.up reqCopy authorities netProtocol s.t with
  | Except.error f => Except.error f
  | Except.ok ex =>
      let s := { s with t := s.t + ex.attempts.length,
                        events := s.events ++ [Event.exchange reqCopy ex.attempts] }
      match ex.err with
      | some err => Except.ok (Except.error ("unable to get info msg " ++ err), s)
      | none => Except.ok (Except.ok ex.resp, s)

/-- Library `(*ccache.Cache).Fetch`: the item under the key when it is held and
not expired; otherwise the producer runs, an error of it is returned and
nothing is stored, a value of it is stored and returned. -/
def rcacheFetch (w : World) (key : String)
    (fetch : Loop → Except Fault (Except String (Option Msg) × Loop)) (s : Loop) :
    Except Fault (Except String (Option Msg) × Loop) :=
  let item := if w.cacheLive s.t key = true then s.cache.lookup key else none
  let s := { s with t := s.t + 1, events := s.events ++ [Event.cacheFetch key] }
  match item with
  | some value => Except.ok (Except.ok value, s)
  | none =>
      match fetch s with
      | Except.error f => Except.error f
      | Except.ok (Except.error err, s) => Except.ok (Except.error err, s)
      | Except.ok (Except.ok value, s) =>
          Except.ok (Except.ok value,
            { s with t := s.t + 1, cache := (key, value) :: s.cache,
                     events := s.events ++ [Event.cacheSet key value] })

/-- The cache key of a question. -/
def cacheKey (w : World) (netProtocol : String) (question : Question) : String :=
  "question:" ++ netProtocol ++ ":" ++ w.lib.QuestionString question

/-- Stage 5: the cached upstream exchange.  On an error the response code is
set and the loop is left; a nil cached message faults when its answer section
is read. -/
def upstreamStage (w : World) (req : Msg) (authorities : List Authority)
    (netProtocol : String) (question : Question) (s : Loop) : Except Fault (Flow × Loop) :=
  match rcacheFetch w (cacheKey w netProtocol question)
      (producer w req authorities netProtocol question) s with
  | Except.error f => Except.error f
  | Except.ok (Except.error _, s) =>
      Except.ok (Flow.stop,
        { s with dnsResp := Msg.SetRcode s.dnsResp s.dnsResp RcodeNameError })
  | Except.ok (Except.ok none, _) => Except.error Fault.nilDereference
  | Except.ok (Except.ok (some tmpResp), s) =>
      Except.ok (Flow.next,
        { s with dnsResp :=
            { s.dnsResp with Answer := s.dnsResp.Answer ++ tmpResp.Answer,
                             Extra := s.dnsResp.Extra ++ tmpResp.Extra } })

/-- The stages of the loop body that answer from local data, in order; the
first that resolves the question ends the iteration. -/
def localStages (w : World) (h : DnsHandler) (netProtocol : String) (question : Question)
    (s : Loop) : Stage :=
  let name := w.lib.ToLower question.Name
  match middlewareStage h netProtocol question s with
  | Stage.done s => Stage.done s
  | Stage.pass s =>
    match hostsStage h question name s with
    | Stage.done s => Stage.done s
    | Stage.pass s =>
      match reverseStage w h question name s with
      | Stage.done s => Stage.done s
      | Stage.pass s => chaosStage h question name s

/-- The body of the loop over the questions in `ResolveDnsQuery`. -/
def resolveQuestion (w : World) (h : DnsHandler) (req : Msg) (authorities : List Authority)
    (netProtocol : String) (question : Question) (s : Loop) : Except Fault (Flow × Loop) :=
  match localStages w h netProtocol question s with
  | Stage.done s => Except.ok (Flow.next, s)
  | Stage.pass s => upstreamStage w req authorities netProtocol question s

/-- The loop `for _, question := range req.Question` of `ResolveDnsQuery`. -/
def resolveQuestions (w : World) (h : DnsHandler) (req : Msg) (authorities : List Authority)
    (netProtocol : String) : List Question → Loop → Except Fault (Flow × Loop)
  | [], s => Except.ok (Flow.next, s)
  | question :: rest, s =>
      match resolveQuestion w h req authorities netProtocol question s with
      | Except.error f => Except.error f
      | Except.ok (Flow.stop, s) => Except.ok (Flow.stop, s)
      | Except.ok (Flow.next, s) => resolveQuestions w h req authorities netProtocol rest s

/-- Go `DnsHandler.ResolveDnsQuery`, started after `t` collaborator calls with
the given cache contents.  Its error result is always nil; the result here is
the final loop state, whose `dnsResp` is the reply returned. -/
def ResolveDnsQuery (w : World) (h : DnsHandler) (req : Msg) (authorities : List Authority)
    (netProtocol : String) (t : Nat) (cache : Cache) : Except Fault Loop :=
  let dnsResp := Msg.SetReply Msg.new req
  match resolveQuestions w h req authorities netProtocol req.Question
      { dnsResp := dnsResp, t := t, cache := cache, events := [] } with
  | Except.error f => Except.error f
  | Except.ok (_, s) => Except.ok s

/-- Go `getNetProtocol`: `tcp` when the remote address is a TCP address. -/
def getNetProtocol (remoteIsTCP : Bool) : String :=
  if remoteIsTCP then "tcp" else "udp"

/-- Go `DnsHandler.ServeDNS`.  The result is the message written to the
client, if any, with the final state of the resolution. -/
def ServeDNS (w : World) (h : DnsHandler) (remoteIsTCP : Bool) (req : Msg) (t : Nat)
    (cache : Cache) : Except Fault (Option Loop) :=
  match req.Question[0]? with
  | none => Except.error Fault.indexOutOfRange
  | some q0 =>
      let questionDomain := q0.Name
      match LeadAuthority h.Authorities questionDomain with
      | Except.error _ => Except.ok none
      | Except.ok authorities =>
          let protocol := getNetProtocol remoteIsTCP
          match ResolveDnsQuery w h req authorities protocol t cache with
          | Except.error f => Except.error f
          | Except.ok s => Except.ok (some s)

/-! ## Host table (`pkg/hosts/hostsfile.go`) -/

/-- Modelled from the spec: the entry type of the host table, which is
declared outside `hostsfile.go`; a `HostEntry` of the data model, with the
fields that `FindReverse` and `NewHostsfile` read: `domain`, `ip`,
`wildcard`. -/
structure hostname where
  domain : String
  ip : IP
  wildcard : Bool
  deriving DecidableEq, Repr

/-- The host table, a slice of entries. -/
abbrev hostlist := List hostname

/-- Library functions the host table calls: `dns.ReverseAddr(ip.String())`
(the reverse-zone name of an address and an error) and `dns.Fqdn`. -/
structure HostLib where
  ReverseAddr : IP → String × Option String
  Fqdn : String → String

/-- Go `hosts.Config`; durations in nanoseconds. -/
structure Config where
  Path : String
  Poll : Int
  TTL : Int
  deriving DecidableEq, Repr

/-- The anonymous struct `Hostsfile.file`; `mtime` is a `time.Time` as an
instant in nanoseconds after the zero time. -/
structure FileStamp where
  size : Int
  path : String
  mtime : Int
  deriving DecidableEq, Repr

/-- Go `hosts.Hostsfile` (without the mutex). -/
structure Hostsfile where
  config : Config
  hosts : hostlist
  file : FileStamp
  deriving DecidableEq, Repr

/-- The loop of `Hostsfile.FindReverse` over a table: the first entry whose
address has the reverse-zone name `name` gives the result, fully qualified;
the error of `ReverseAddr` is dropped, and the result is empty when no entry
matches. -/
def findReverseLoop (lib : HostLib) (name : String) : hostlist → String
  | [] => ""
  | hostname :: rest =>
      if name = (lib.ReverseAddr hostname.ip).1 then lib.Fqdn hostname.domain
      else findReverseLoop lib name rest

/-- Go `Hostsfile.FindReverse`; the error result is always nil. -/
def Hostsfile.FindReverse (lib : HostLib) (h : Hostsfile) (name : String) :
    String × Option String :=
  (findReverseLoop lib name h.hosts, none)

/-- Go `strings.TrimSuffix`. -/
def TrimSuffix (s suffix : String) : String :=
  if HasSuffix s suffix = true then
    String.mk (s.data.take (s.data.length - suffix.data.length))
  else s

/-- Go `Hostsfile.FindHosts`; `hostlistFindHosts` is the method
`hostlist.FindHosts`, which is declared outside `hostsfile.go`. -/
def Hostsfile.FindHosts (hostlistFindHosts : hostlist → String → List IP) (h : Hostsfile)
    (name : String) : List IP × Option String :=
  (hostlistFindHosts h.hosts (TrimSuffix name "."), none)

/-- A `Hostsfile` as the handler sees it through the interface `Hostfile`;
`h t` is the object at collaborator call `t`. -/
def Hostsfile.toHostfile (lib : HostLib) (hostlistFindHosts : hostlist → String → List IP)
    (h : Nat → Hostsfile) : Hostfile :=
  { FindHosts := fun t name => Hostsfile.FindHosts hostlistFindHosts (h t) name,
    FindReverse := fun t name => Hostsfile.FindReverse lib (h t) name }

/-- Modelled from the spec: the file system as the host table sees it, through
`os.ReadFile` and through `hostsFileMetadata`, which is not in `hostsfile.go`
and returns the file's modification time and size, or an error.  The index is
the poll tick; 0 is the time of construction. -/
structure FileSystem where
  ReadFile : Nat → String → Except String (List Nat)
  hostsFileMetadata : Nat → String → Except String (Int × Int)

/-- Go `Hostsfile.loadHostEntries` at tick `k`; `newHostlist` is the parser,
which is declared outside `hostsfile.go`. -/
def Hostsfile.loadHostEntries (fs : FileSystem) (newHostlist : List Nat → hostlist) (k : Nat)
    (h : Hostsfile) : Except String Hostsfile :=
  match fs.ReadFile k h.file.path with
  | Except.error err => Except.error err
  | Except.ok data => Except.ok { h with hosts := newHostlist data }

/-- Go `NewHostsfile`: the object, and whether the poller was started. -/
def NewHostsfile (fs : FileSystem) (newHostlist : List Nat → hostlist) (config : Config) :
    Except String (Hostsfile × Bool) :=
  let h : Hostsfile :=
    { config := config, hosts := [], file := { size := 0, path := "", mtime := 0 } }
  if config.Path = "" then Except.ok (h, false)
  else
    let h := { h with file := { h.file with path := config.Path } }
    match Hostsfile.loadHostEntries fs newHostlist 0 h with
    | Except.error err => Except.error err
    | Except.ok h => Except.ok (h, decide (h.config.Poll > 0))

/-- The state of the poller: the object, the local copy `hf` of its `file`
field, and how many times the file has been re-read. -/
structure Monitor where
  h : Hostsfile
  hf : FileStamp
  reads : Nat
  deriving DecidableEq, Repr

/-- One iteration of the loop of `monitorHostEntries`, at tick `k`. -/
def monitorTick (fs : FileSystem) (newHostlist : List Nat → hostlist) (k : Nat)
    (m : Monitor) : Monitor :=
  match fs.hostsFileMetadata k m.hf.path with
  | Except.error _ => m
  | Except.ok (mtime, size) =>
      if m.hf.mtime = mtime ∧ m.hf.size = size then m
      else
        let h :=
          match Hostsfile.loadHostEntries fs newHostlist k m.h with
          | Except.error _ => m.h
          | Except.ok h => h
        let h := { h with file := { h.file with mtime := mtime, size := size } }
        { h := h, hf := h.file, reads := m.reads + 1 }

/-- Go `monitorHostEntries` up to and including tick `n`: `hf := h.file`, the
return on an empty path, then the ticks `1 .. n`. -/
def monitorHostEntries (fs : FileSystem) (newHostlist : List Nat → hostlist) (h : Hostsfile) :
    Nat → Monitor
  | 0 => { h := h, hf := h.file, reads := 0 }
  | n + 1 =>
      if h.file.path = "" then { h := h, hf := h.file, reads := 0 }
      else monitorTick fs newHostlist (n + 1) (monitorHostEntries fs newHostlist h n)

/-! ## Sample data -/

/-- Three catch-all authorities, as in `cmd/dnsproxy/main.go`. -/
def sampleAuthorities : List Authority :=
  [ { Address := "223.5.5.5:53", DomainName := "", Timeout := 2000000000 },
    { Address := "223.6.6.6:53", DomainName := "", Timeout := 2000000000 },
    { Address := "8.8.8.8:53", DomainName := "", Timeout := 2000000000 } ]

/-- A standard query for the A record of `example.com.`. -/
def sampleQuery : Msg :=
  { Msg.new with
    Id := 7, RecursionDesired := true,
    Question := [{ Name := "example.com.", Qtype := TypeA, Qclass := ClassINET }] }

/-- An upstream answer to `sampleQuery`. -/
def sampleAnswer : Msg :=
  { Msg.new with
    Id := 7, Response := true,
    Question := [{ Name := "example.com.", Qtype := TypeA, Qclass := ClassINET }],
    Answer := [{ Hdr := { Name := "example.com.", Rrtype := TypeA, Class := ClassINET,
                          Ttl := 300 },
                 Data := RData.A [93, 184, 216, 34] }] }

/-- An upstream whose first two exchanges time out and whose later ones
answer. -/
def timeoutTwice : Upstream := fun t _ _ _ =>
  if t < 2 then Outcome.failure none "i/o timeout" else Outcome.answer sampleAnswer

/-- An upstream that is down: every exchange times out. -/
def allDown : Upstream := fun _ _ _ _ => Outcome.failure none "i/o timeout"

/-! ## Reference models of the library functions, for concrete runs -/

/-- The function `strings.ToLower` on ASCII strings. -/
def asciiToLower (s : String) : String :=
  String.mk (s.data.map Char.toLower)

/-- The method `dns.Question.String` for the classes and types that
`handler.go` names; other values print as numbers. -/
def questionString (q : Question) : String :=
  let cls :=
    if q.Qclass = ClassINET then "IN" else if q.Qclass = ClassCHAOS then "CH"
    else "CLASS" ++ toString q.Qclass
  let typ :=
    if q.Qtype = TypeA then "A" else if q.Qtype = TypeAAAA then "AAAA"
    else if q.Qtype = TypePTR then "PTR" else if q.Qtype = TypeTXT then "TXT"
    else if q.Qtype = TypeANY then "ANY" else "TYPE" ++ toString q.Qtype
  ";" ++ q.Name ++ "\t" ++ cls ++ "\t " ++ typ

/-- The library functions on ASCII names. -/
def goLib : Lib :=
  { ToLower := asciiToLower, QuestionString := questionString }

/-- A lower-case hexadecimal digit. -/
def hexDigit (n : Nat) : Char :=
  "0123456789abcdef".data.getD n '0'

/-- The function `dns.ReverseAddr` applied to `ip.String()`: for an IPv4
address the four bytes in reverse, in decimal, under `in-addr.arpa.`; for any
other 16-byte address the 32 nibbles in reverse under `ip6.arpa.`; for a
slice that is no address the empty string and an error. -/
def reverseAddr (ip : IP) : String × Option String :=
  if IP.To4 ip ≠ [] then
    (String.join ((IP.To4 ip).reverse.map (fun b => toString b ++ ".")) ++ "in-addr.arpa.",
      none)
  else if ip.length = 16 then
    (String.join (ip.reverse.map
        (fun v => String.mk [hexDigit (v % 16), '.', hexDigit (v / 16), '.'])) ++ "ip6.arpa.",
      none)
  else ("", some "unrecognized address")

/-- The function `dns.IsFqdn`: the name ends in a dot that is not escaped,
that is, preceded by an even number of backslashes. -/
def isFqdn (s : String) : Bool :=
  match s.data.reverse with
  | '.' :: rest => (rest.takeWhile (fun c => c = '\\')).length % 2 = 0
  | _ => false

/-- The function `dns.Fqdn`. -/
def fqdn (s : String) : String :=
  if isFqdn s = true then s else s ++ "."

/-- The library functions of the host table. -/
def miekgHostLib : HostLib :=
  { ReverseAddr := reverseAddr, Fqdn := fqdn }

/-- A host table with the entry of the specification, after another entry. -/
def sampleHosts : Hostsfile :=
  { config := { Path := "/etc/hosts", Poll := 10000000000, TTL := 0 },
    hosts := [ { domain := "localhost", ip := [127, 0, 0, 1], wildcard := false },
               { domain := "x.test.", ip := [10, 0, 0, 1], wildcard := false },
               { domain := "six.test", wildcard := false,
                 ip := [0, 0, 0, 0, 0, 0, 0, 0, 0, 0, 0, 0, 0, 0, 0, 1] } ],
    file := { size := 0, path := "/etc/hosts", mtime := 0 } }

/-- A stand-in for `hostlist.FindHosts`: exact match on the domain. -/
def exactFindHosts (hosts : hostlist) (name : String) : List IP :=
  (hosts.filter (fun e => decide (e.domain = name))).map (fun e => e.ip)

/-- A handler over `sampleHosts` with the sample authorities and no
middleware. -/
def sampleHandler : DnsHandler :=
  { Authorities := sampleAuthorities, CacheTTL := 15000000000,
    hosts := Hostsfile.toHostfile miekgHostLib exactFindHosts (fun _ => sampleHosts),
    version := "", middleware := none }

/-- A world with the reference library, an upstream that is down and a cache
that holds every entry. -/
def sampleWorld : World :=
  { lib := goLib, up := allDown, cacheLive := fun _ _ => true }

/-- The handler `sampleHandler` with a version string. -/
def versionedHandler : DnsHandler :=
  { sampleHandler with version := "dnsproxy-1.0" }

/-- A CHAOS-class TXT query for `VERSION.BIND.`. -/
def versionQuery : Msg :=
  { Msg.new with
    Id := 9,
    Question := [{ Name := "VERSION.BIND.", Qtype := TypeTXT, Qclass := ClassCHAOS }] }

/-- The reverse-zone name of the address `::1`. -/
def loopback6Name : String :=
  "1.0.0.0.0.0.0.0.0.0.0.0.0.0.0.0.0.0.0.0.0.0.0.0.0.0.0.0.0.0.0.0.ip6.arpa."

/-- An INET-class TXT query (not a PTR query) for the reverse-zone name of
`::1`. -/
def txtReverseQuery : Msg :=
  { Msg.new with
    Id := 11,
    Question := [{ Name := loopback6Name, Qtype := TypeTXT, Qclass := ClassINET }] }

/-- A message without a question. -/
def emptyQuery : Msg :=
  { Msg.new with Id := 13 }

/-- A file system whose hosts file never changes: the same content, the
same modification time and the same size at every tick. -/
def steadyFile : FileSystem :=
  { ReadFile := fun _ _ => Except.ok [49, 48, 46, 48, 46, 48, 46, 49, 32, 120, 10],
    hostsFileMetadata := fun _ _ => Except.ok (1700000000000000000, 11) }

/-- A stand-in for the parser `newHostlist`: one entry whatever the data. -/
def oneEntryParser : List Nat → hostlist := fun _ =>
  [{ domain := "x", ip := [10, 0, 0, 1], wildcard := false }]

/-- A host-table configuration with polling. -/
def pollingConfig : Config :=
  { Path := "/etc/hosts", Poll := 10000000000, TTL := 0 }

/-! ## Auxiliary notions for the proofs -/

/-- The loop state inside a stage result. -/
def Stage.loop : Stage → Loop
  | Stage.done s => s
  | Stage.pass s => s

/-- The events of the stages that answer from local data. -/
def Event.isLocal : Event → Bool
  | Event.middleware _ _ => true
  | Event.findHosts _ => true
  | Event.findReverse _ => true
  | _ => false

/-- What a local stage may change: it keeps the response code, the
additional section and the cache, and it appends local events only. -/
def localFrame (s s' : Loop) : Prop :=
  s'.dnsResp.Rcode = s.dnsResp.Rcode ∧ s'.dnsResp.Extra = s.dnsResp.Extra ∧
    s'.cache = s.cache ∧
    ∃ evs, s'.events = s.events ++ evs ∧ ∀ e ∈ evs, e.isLocal = true

/-- No value held by the cache is a nil message. -/
def Cache.noNil (c : Cache) : Prop :=
  ∀ kv ∈ c, kv.2 ≠ none

/-- Every producer run in the trace made at least one attempt, and when its
last attempt was answered, that answer was set in the cache and is held by
it; the cache holds no nil value. -/
def Loop.stored (s : Loop) : Prop :=
  Cache.noNil s.cache ∧
    ∀ r attempts, Event.exchange r attempts ∈ s.events →
      ∃ last, attempts.getLast? = some last ∧
        ∀ resp, last.out = Outcome.answer resp →
          ∃ key, Event.cacheSet key (some resp) ∈ s.events ∧ (key, some resp) ∈ s.cache

/-- The state of the loop while no producer has failed: the response code is
success and no producer run ended with a transport error. -/
def Loop.running (s : Loop) : Prop :=
  Loop.stored s ∧ s.dnsResp.Rcode = RcodeSuccess ∧
    ∀ r attempts last, Event.exchange r attempts ∈ s.events →
      attempts.getLast? = some last → last.out.err = none

/-- The state of the loop after a `break`: the response code is name-error
and a producer run ended with a transport error. -/
def Loop.broken (s : Loop) : Prop :=
  Loop.stored s ∧ s.dnsResp.Rcode = RcodeNameError ∧
    ∃ r attempts last, Event.exchange r attempts ∈ s.events ∧
      attempts.getLast? = some last ∧ last.out.err ≠ none

/-- A request with two questions that the host table does not answer. -/
def twoQuestions : Msg :=
  { Msg.new with
    Id := 21, RecursionDesired := true,
    Question := [ { Name := "example.com.", Qtype := TypeA, Qclass := ClassINET },
                  { Name := "example.org.", Qtype := TypeA, Qclass := ClassINET } ] }
/-! ## Proofs: authority selector -/

theorem leadSuffixLoop_eq (url : String) (authorities : List Authority) :
    ∀ results : List Authority,
      leadSuffixLoop url authorities results =
        results ++ authorities.filter
          (fun a => decide (a.DomainName ≠ "" ∧ HasSuffix url a.DomainName = true)) := by
  induction authorities with
  | nil => intro results; simp [leadSuffixLoop]
  | cons a rest ih =>
    intro results
    have step := ih (if a.DomainName ≠ "" ∧ HasSuffix url a.DomainName = true
      then results ++ [a] else results)
    simp only [leadSuffixLoop, List.foldl_cons] at step ⊢
    rw [step]
    by_cases h : a.DomainName ≠ "" ∧ HasSuffix url a.DomainName = true
    · simp [List.filter_cons, h]
    · simp [List.filter_cons, h]

theorem leadDefaultLoop_eq (authorities : List Authority) :
    ∀ results : List Authority,
      leadDefaultLoop authorities results =
        results ++ authorities.filter (fun a => decide (a.DomainName = "")) := by
  induction authorities with
  | nil => intro results; simp [leadDefaultLoop]
  | cons a rest ih =>
    intro results
    have step := ih (if a.DomainName = "" then results ++ [a] else results)
    simp only [leadDefaultLoop, List.foldl_cons] at step ⊢
    rw [step]
    by_cases h : a.DomainName = ""
    · simp [List.filter_cons, h]
    · simp [List.filter_cons, h]

theorem LeadAuthority_eq (authorities : List Authority) (d : String) :
    LeadAuthority authorities d =
      if suffixTier authorities d ≠ [] then Except.ok (suffixTier authorities d)
      else if defaultTier authorities ≠ [] then Except.ok (defaultTier authorities)
      else Except.error ("unable to find authority for " ++ d) := by
  have e1 : leadSuffixLoop d authorities [] = suffixTier authorities d := by
    rw [leadSuffixLoop_eq, List.nil_append]; rfl
  have e2 : ∀ r, leadDefaultLoop authorities r = r ++ defaultTier authorities := by
    intro r; rw [leadDefaultLoop_eq]; rfl
  unfold LeadAuthority
  simp only [e1, e2, List.length_eq_zero]
  generalize suffixTier authorities d = S
  generalize defaultTier authorities = D
  cases S with
  | nil =>
    cases D with
    | nil => simp
    | cons x xs => simp
  | cons x xs => simp

theorem suffixTier_ne_nil_iff (authorities : List Authority) (d : String) :
    suffixTier authorities d ≠ [] ↔
      ∃ a ∈ authorities, a.DomainName ≠ "" ∧ HasSuffix d a.DomainName = true := by
  unfold suffixTier
  rw [Ne, List.filter_eq_nil_iff]
  simp

theorem defaultTier_ne_nil_iff (authorities : List Authority) :
    defaultTier authorities ≠ [] ↔ ∃ a ∈ authorities, a.DomainName = "" := by
  unfold defaultTier
  rw [Ne, List.filter_eq_nil_iff]
  simp

/-- C1: `LeadAuthority(d)` returns (1) exactly the authorities with a
non-empty `DomainName` that is a suffix of `d`, in configuration order and
without any default authority, when there is one; (2) otherwise exactly the
empty-`DomainName` authorities in configuration order when there is one;
(3) otherwise an error; and a successful result is never empty. -/
theorem LeadAuthority_spec (authorities : List Authority) (d : String) :
    ((∃ a ∈ authorities, a.DomainName ≠ "" ∧ HasSuffix d a.DomainName = true) →
        LeadAuthority authorities d =
            Except.ok (authorities.filter
              (fun a => decide (a.DomainName ≠ "" ∧ HasSuffix d a.DomainName = true))) ∧
          ∀ r, LeadAuthority authorities d = Except.ok r → ∀ a ∈ r, a.DomainName ≠ "") ∧
    ((¬ ∃ a ∈ authorities, a.DomainName ≠ "" ∧ HasSuffix d a.DomainName = true) →
        (∃ a ∈ authorities, a.DomainName = "") →
        LeadAuthority authorities d =
          Except.ok (authorities.filter (fun a => decide (a.DomainName = "")))) ∧
    ((¬ ∃ a ∈ authorities, a.DomainName ≠ "" ∧ HasSuffix d a.DomainName = true) →
        (¬ ∃ a ∈ authorities, a.DomainName = "") →
        ∃ e, LeadAuthority authorities d = Except.error e) ∧
    (∀ r, LeadAuthority authorities d = Except.ok r → r ≠ []) := by
  have hs := suffixTier_ne_nil_iff authorities d
  have hd := defaultTier_ne_nil_iff authorities
  have heq := LeadAuthority_eq authorities d
  refine ⟨?_, ?_, ?_, ?_⟩
  · intro hex
    have hne : suffixTier authorities d ≠ [] := hs.mpr hex
    rw [if_pos hne] at heq
    refine ⟨heq, ?_⟩
    intro r hr a ha
    rw [heq] at hr
    cases hr
    have hm := (List.mem_filter.mp ha).2
    exact (of_decide_eq_true hm).1
  · intro hno hex
    have h1 : ¬ suffixTier authorities d ≠ [] := fun h => hno (hs.mp h)
    have h2 : defaultTier authorities ≠ [] := hd.mpr hex
    rw [if_neg h1, if_pos h2] at heq
    exact heq
  · intro hno hno2
    have h1 : ¬ suffixTier authorities d ≠ [] := fun h => hno (hs.mp h)
    have h2 : ¬ defaultTier authorities ≠ [] := fun h => hno2 (hd.mp h)
    rw [if_neg h1, if_neg h2] at heq
    exact ⟨_, heq⟩
  · intro r hr
    rw [heq] at hr
    by_cases h1 : suffixTier authorities d ≠ []
    · rw [if_pos h1] at hr
      cases hr
      exact h1
    · rw [if_neg h1] at hr
      by_cases h2 : defaultTier authorities ≠ []
      · rw [if_pos h2] at hr
        cases hr
        exact h2
      · rw [if_neg h2] at hr
        cases hr


/-! ## Proofs: upstream exchanger -/

theorem cursor_step (n s : Nat) (hn : 0 < n) :
    (if n - 1 > s % n then s % n + 1 else 0) = (s + 1) % n := by
  have hlt : s % n < n := Nat.mod_lt s hn
  have hmod : (s + 1) % n = (s % n + 1 % n) % n := Nat.add_mod s 1 n
  by_cases h : n - 1 > s % n
  · have h1 : 1 % n = 1 := Nat.mod_eq_of_lt (by omega)
    rw [if_pos h, hmod, h1, Nat.mod_eq_of_lt (show s % n + 1 < n by omega)]
  · rw [if_neg h, hmod]
    have he : s % n = n - 1 := by omega
    by_cases hn1 : n = 1
    · subst hn1; simp [Nat.mod_one]
    · have h1 : 1 % n = 1 := Nat.mod_eq_of_lt (by omega)
      have h2 : n - 1 + 1 = n := by omega
      rw [h1, he, h2, Nat.mod_self]

theorem authorityAt_get (authorities : List Authority) (i : Nat) (hn : 0 < authorities.length) :
    authorities[i % authorities.length]? = some (authorityAt authorities i) := by
  unfold authorityAt
  have hlt : i % authorities.length < authorities.length := Nat.mod_lt i hn
  rw [List.getElem?_eq_getElem hlt, List.getD_eq_getElem _ _ hlt]

theorem exchangeLoop_retry (up : Upstream) (req : Msg) (authorities : List Authority)
    (netProtocol : String) (t s r : Nat) (resp : Option Msg) (err : Option String)
    (attempts : List Attempt) (hn : 0 < authorities.length)
    (hout : (outcomeAt up req authorities netProtocol t s).terminal = false) :
    exchangeLoop up req authorities netProtocol authorities.length (r + 1)
        (s % authorities.length) resp err (t + s) attempts =
      exchangeLoop up req authorities netProtocol authorities.length r
        ((s + 1) % authorities.length)
        (outcomeAt up req authorities netProtocol t s).resp
        (outcomeAt up req authorities netProtocol t s).err (t + (s + 1))
        (attempts ++ [attemptAt up req authorities netProtocol t s]) := by
  rw [exchangeLoop, authorityAt_get authorities s hn]
  dsimp only
  simp only [cursor_step _ _ hn]
  unfold outcomeAt at hout
  unfold attemptAt outcomeAt
  generalize up (t + s) req (authorityAt authorities s) netProtocol = o at hout ⊢
  cases o with
  | answer m =>
    simp only [Outcome.terminal] at hout
    simp only [hout, Nat.add_assoc]
    rfl
  | failure m e => simp only [Nat.add_assoc]

theorem exchangeLoop_return (up : Upstream) (req : Msg) (authorities : List Authority)
    (netProtocol : String) (t s r : Nat) (resp : Option Msg) (err : Option String)
    (attempts : List Attempt) (hn : 0 < authorities.length)
    (hout : (outcomeAt up req authorities netProtocol t s).terminal = true) :
    exchangeLoop up req authorities netProtocol authorities.length (r + 1)
        (s % authorities.length) resp err (t + s) attempts =
      Except.ok
        { resp := (outcomeAt up req authorities netProtocol t s).resp,
          err := (outcomeAt up req authorities netProtocol t s).err,
          attempts := attempts ++ [attemptAt up req authorities netProtocol t s] } := by
  rw [exchangeLoop, authorityAt_get authorities s hn]
  dsimp only
  unfold outcomeAt at hout
  unfold attemptAt outcomeAt
  generalize up (t + s) req (authorityAt authorities s) netProtocol = o at hout ⊢
  cases o with
  | answer m =>
    simp only [Outcome.terminal] at hout
    simp only [hout]
    rfl
  | failure m e =>
    simp [Outcome.terminal] at hout

theorem range_succ_map_shift (f : Nat → Attempt) (s m : Nat) :
    [f s] ++ (List.range m).map (fun i => f (s + 1 + i)) =
      (List.range (m + 1)).map (fun i => f (s + i)) := by
  rw [List.range_succ_eq_map, List.map_cons, List.map_map]
  simp only [Nat.add_zero, List.singleton_append, List.cons.injEq, true_and]
  apply List.map_congr_left
  intro i _
  simp only [Function.comp, Nat.succ_eq_add_one]
  congr 1
  omega

/-- Every run of the loop of `exchange` ends: either all `r` remaining
attempts are retried, or the first `m < r` are and attempt `m` returns. -/
theorem exchangeLoop_cases (up : Upstream) (req : Msg) (authorities : List Authority)
    (netProtocol : String) (t : Nat) (hn : 0 < authorities.length) :
    ∀ (r s : Nat) (resp : Option Msg) (err : Option String) (attempts : List Attempt),
      ∃ ex m,
        exchangeLoop up req authorities netProtocol authorities.length r
            (s % authorities.length) resp err (t + s) attempts = Except.ok ex ∧
        m ≤ r ∧
        (∀ i < m, (outcomeAt up req authorities netProtocol t (s + i)).terminal = false) ∧
        ((m = r ∧
            ex.attempts = attempts ++
              (List.range m).map (fun i => attemptAt up req authorities netProtocol t (s + i)) ∧
            ex.resp = (if m = 0 then resp
              else (outcomeAt up req authorities netProtocol t (s + m - 1)).resp) ∧
            ex.err = (if m = 0 then err
              else (outcomeAt up req authorities netProtocol t (s + m - 1)).err)) ∨
          (m < r ∧
            (outcomeAt up req authorities netProtocol t (s + m)).terminal = true ∧
            ex.attempts = attempts ++
              (List.range (m + 1)).map
                (fun i => attemptAt up req authorities netProtocol t (s + i)) ∧
            ex.resp = (outcomeAt up req authorities netProtocol t (s + m)).resp ∧
            ex.err = (outcomeAt up req authorities netProtocol t (s + m)).err)) := by
  intro r
  induction r with
  | zero =>
    intro s resp err attempts
    refine ⟨{ resp := resp, err := err, attempts := attempts }, 0, ?_, Nat.le_refl 0, ?_, ?_⟩
    · rw [exchangeLoop]
    · intro i hi; omega
    · left
      simp
  | succ r ih =>
    intro s resp err attempts
    by_cases hterm : (outcomeAt up req authorities netProtocol t s).terminal = true
    · refine ⟨_, 0, exchangeLoop_return up req authorities netProtocol t s r resp err
        attempts hn hterm, Nat.zero_le _, ?_, ?_⟩
      · intro i hi; omega
      · right
        refine ⟨Nat.succ_pos r, hterm, ?_, rfl, rfl⟩
        rfl
    · have hfalse : (outcomeAt up req authorities netProtocol t s).terminal = false := by
        simpa using hterm
      obtain ⟨ex, m, hrun, hm, hfail, hcase⟩ :=
        ih (s + 1) (outcomeAt up req authorities netProtocol t s).resp
          (outcomeAt up req authorities netProtocol t s).err
          (attempts ++ [attemptAt up req authorities netProtocol t s])
      refine ⟨ex, m + 1, ?_, Nat.succ_le_succ hm, ?_, ?_⟩
      · rw [exchangeLoop_retry up req authorities netProtocol t s r resp err attempts hn hfalse]
        exact hrun
      · intro i hi
        cases i with
        | zero => simpa using hfalse
        | succ j =>
          have := hfail j (by omega)
          have e : s + (j + 1) = s + 1 + j := by omega
          rw [e]; exact this
      · have hshift : ∀ k, attempts ++ [attemptAt up req authorities netProtocol t s] ++
            (List.range k).map
              (fun i => attemptAt up req authorities netProtocol t (s + 1 + i)) =
            attempts ++ (List.range (k + 1)).map
              (fun i => attemptAt up req authorities netProtocol t (s + i)) := by
          intro k
          rw [List.append_assoc,
            range_succ_map_shift (fun i => attemptAt up req authorities netProtocol t i) s k]
        rcases hcase with ⟨hmr, hatt, hresp, herr⟩ | ⟨hmr, hterm2, hatt, hresp, herr⟩
        · left
          refine ⟨by omega, ?_, ?_, ?_⟩
          · rw [hatt, hshift]
          · rw [hresp]
            by_cases hm0 : m = 0
            · subst hm0; simp
            · have e : s + 1 + m - 1 = s + (m + 1) - 1 := by omega
              simp [hm0, e]
          · rw [herr]
            by_cases hm0 : m = 0
            · subst hm0; simp
            · have e : s + 1 + m - 1 = s + (m + 1) - 1 := by omega
              simp [hm0, e]
        · right
          have e : s + 1 + m = s + (m + 1) := by omega
          refine ⟨by omega, ?_, ?_, ?_, ?_⟩
          · rw [← e]; exact hterm2
          · rw [hatt, hshift]
          · rw [hresp, e]
          · rw [herr, e]

theorem exchange_cases (up : Upstream) (req : Msg) (authorities : List Authority)
    (netProtocol : String) (t : Nat) (hn : 0 < authorities.length) :
    ∃ ex m,
      exchange up req authorities netProtocol t = Except.ok ex ∧
      m ≤ authorities.length + 1 ∧
      (∀ i < m, (outcomeAt up req authorities netProtocol t i).terminal = false) ∧
      ((m = authorities.length + 1 ∧
          ex.attempts =
            (List.range m).map (fun i => attemptAt up req authorities netProtocol t i) ∧
          ex.resp = (outcomeAt up req authorities netProtocol t authorities.length).resp ∧
          ex.err = (outcomeAt up req authorities netProtocol t authorities.length).err) ∨
        (m < authorities.length + 1 ∧
          (outcomeAt up req authorities netProtocol t m).terminal = true ∧
          ex.attempts =
            (List.range (m + 1)).map (fun i => attemptAt up req authorities netProtocol t i) ∧
          ex.resp = (outcomeAt up req authorities netProtocol t m).resp ∧
          ex.err = (outcomeAt up req authorities netProtocol t m).err)) := by
  obtain ⟨ex, m, hrun, hm, hfail, hcase⟩ :=
    exchangeLoop_cases up req authorities netProtocol t hn (authorities.length + 1) 0
      none none []
  simp only [Nat.zero_mod, Nat.add_zero, Nat.zero_add, List.nil_append] at hrun hfail hcase
  refine ⟨ex, m, hrun, hm, hfail, ?_⟩
  rcases hcase with ⟨hmr, hatt, hresp, herr⟩ | ⟨hmr, hterm, hatt, hresp, herr⟩
  · left
    have hm0 : m ≠ 0 := by omega
    have e : m - 1 = authorities.length := by omega
    rw [if_neg hm0, e] at hresp herr
    exact ⟨hmr, hatt, hresp, herr⟩
  · right
    exact ⟨hmr, hterm, hatt, hresp, herr⟩

theorem authorityAt_of_get (authorities : List Authority) (i : Nat) (a : Authority)
    (h : authorities[i]? = some a) : authorityAt authorities i = a := by
  have hlt : i < authorities.length := by
    by_contra hge
    rw [List.getElem?_eq_none (by omega)] at h
    cases h
  have hn : 0 < authorities.length := by omega
  have h2 := authorityAt_get authorities i hn
  rw [Nat.mod_eq_of_lt hlt, h] at h2
  exact (Option.some.inj h2).symm

/-- C2: failover.  When the exchanges with authorities `0 .. k-1` each fail
(a transport error or a non-terminal response code) and authority `k` answers
without transport error with a terminal code, `exchange` returns exactly that
response with a nil error after exactly `k + 1` attempts, made to the
authorities `0 .. k` in order. -/
theorem exchange_failover (up : Upstream) (req : Msg) (authorities : List Authority)
    (netProtocol : String) (t k : Nat) (ak : Authority) (resp : Msg)
    (hk : k < authorities.length)
    (hfail : ∀ i < k, ∀ a, authorities[i]? = some a →
      (up (t + i) req a netProtocol).terminal = false)
    (hak : authorities[k]? = some ak)
    (hresp : up (t + k) req ak netProtocol = Outcome.answer resp)
    (hterm : isTerminal resp.Rcode = true) :
    ∃ ex, exchange up req authorities netProtocol t = Except.ok ex ∧
      ex.resp = some resp ∧ ex.err = none ∧
      ex.attempts.length = k + 1 ∧
      ex.attempts.map (fun a => a.nsIdx) = List.range (k + 1) := by
  have hn : 0 < authorities.length := by omega
  obtain ⟨ex, m, hrun, hm, hnon, hcase⟩ := exchange_cases up req authorities netProtocol t hn
  have hk_out : outcomeAt up req authorities netProtocol t k = Outcome.answer resp := by
    unfold outcomeAt
    rw [authorityAt_of_get authorities k ak hak]
    exact hresp
  have hk_term : (outcomeAt up req authorities netProtocol t k).terminal = true := by
    rw [hk_out]; exact hterm
  have hi_fail : ∀ i < k, (outcomeAt up req authorities netProtocol t i).terminal = false := by
    intro i hi
    have hlt : i < authorities.length := by omega
    unfold outcomeAt
    exact hfail i hi _ (by
      have := authorityAt_get authorities i hn
      rwa [Nat.mod_eq_of_lt hlt] at this)
  have hmk : m = k := by
    rcases Nat.lt_trichotomy m k with hlt | heq | hgt
    · exfalso
      rcases hcase with ⟨hmr, _⟩ | ⟨_, hterm2, _⟩
      · omega
      · rw [hi_fail m hlt] at hterm2; cases hterm2
    · exact heq
    · exfalso
      have := hnon k hgt
      rw [hk_term] at this; cases this
  subst hmk
  refine ⟨ex, hrun, ?_⟩
  rcases hcase with ⟨hmr, _⟩ | ⟨_, _, hatt, hr, he⟩
  · omega
  · rw [hk_out] at hr he
    refine ⟨hr, he, ?_, ?_⟩
    · rw [hatt]; simp
    · rw [hatt, List.map_map]
      have hmod : ∀ i ∈ List.range (m + 1), i % authorities.length = i := by
        intro i hi
        exact Nat.mod_eq_of_lt (by have := List.mem_range.mp hi; omega)
      calc List.map ((fun a => a.nsIdx) ∘
              fun i => attemptAt up req authorities netProtocol t i) (List.range (m + 1))
          = List.map (fun i => i) (List.range (m + 1)) := by
            apply List.map_congr_left
            intro i hi
            simp only [Function.comp, attemptAt]
            exact hmod i hi
        _ = List.range (m + 1) := List.map_id _

/-- Witness of C2 (the case of the specification): three authorities, the
first two time out, the third answers with success. -/
theorem exchange_failover_witness :
    ∃ ex, exchange timeoutTwice sampleQuery sampleAuthorities "udp" 0 = Except.ok ex ∧
      ex.resp = some sampleAnswer ∧ ex.err = none ∧
      ex.attempts.length = 2 + 1 ∧
      ex.attempts.map (fun a => a.nsIdx) = List.range (2 + 1) :=
  exchange_failover timeoutTwice sampleQuery sampleAuthorities "udp" 0 2
    { Address := "8.8.8.8:53", DomainName := "", Timeout := 2000000000 } sampleAnswer
    (by decide)
    (by intro i hi a _; simp [timeoutTwice, hi, Outcome.terminal])
    (by rfl) (by rfl) (by decide)

/-- C3: bounded round-robin.  For a non-empty list of `n` authorities and any
upstream, `exchange` ends after at least one and at most `n + 1` attempts;
attempt number `i` (0-based) goes to the authority at index `i mod n`; and
when no attempt is terminal there are exactly `n + 1` attempts, the last one
to authority 0 again, and the response and error returned are its own. -/
theorem exchange_bounded_round_robin (up : Upstream) (req : Msg)
    (authorities : List Authority) (netProtocol : String) (t : Nat)
    (hne : authorities ≠ []) :
    ∃ ex, exchange up req authorities netProtocol t = Except.ok ex ∧
      1 ≤ ex.attempts.length ∧ ex.attempts.length ≤ authorities.length + 1 ∧
      (∀ i, i < ex.attempts.length →
        ∃ a, authorities[i % authorities.length]? = some a ∧
          ex.attempts[i]? = some
            { nsIdx := i % authorities.length, authority := a,
              out := up (t + i) req a netProtocol }) ∧
      ((∀ a ∈ ex.attempts, a.out.terminal = false) →
        ex.attempts.length = authorities.length + 1 ∧
        ∃ a0, authorities[0]? = some a0 ∧
          ex.attempts.getLast? = some
            { nsIdx := 0, authority := a0,
              out := up (t + authorities.length) req a0 netProtocol } ∧
          ex.resp = (up (t + authorities.length) req a0 netProtocol).resp ∧
          ex.err = (up (t + authorities.length) req a0 netProtocol).err) := by
  have hn : 0 < authorities.length := List.length_pos.mpr hne
  obtain ⟨ex, m, hrun, hm, hnon, hcase⟩ := exchange_cases up req authorities netProtocol t hn
  have hget : ∀ L i, i < L →
      ((List.range L).map (fun i => attemptAt up req authorities netProtocol t i))[i]? =
        some (attemptAt up req authorities netProtocol t i) := by
    intro L i hi
    rw [List.getElem?_map, List.getElem?_range hi]
    rfl
  have hidx : ∀ L, ex.attempts =
      (List.range L).map (fun i => attemptAt up req authorities netProtocol t i) →
      ∀ i, i < ex.attempts.length →
        ∃ a, authorities[i % authorities.length]? = some a ∧
          ex.attempts[i]? = some
            { nsIdx := i % authorities.length, authority := a,
              out := up (t + i) req a netProtocol } := by
    intro L hatt i hi
    refine ⟨authorityAt authorities i, authorityAt_get authorities i hn, ?_⟩
    have hL : ex.attempts.length = L := by rw [hatt]; simp
    rw [hatt, hget L i (by omega)]
    rfl
  refine ⟨ex, hrun, ?_⟩
  rcases hcase with ⟨hmr, hatt, hresp, herr⟩ | ⟨hmr, hterm, hatt, hresp, herr⟩
  · have hL : ex.attempts.length = authorities.length + 1 := by rw [hatt]; simp [hmr]
    refine ⟨by omega, by omega, hidx m hatt, ?_⟩
    intro _
    refine ⟨hL, authorityAt authorities authorities.length, ?_, ?_, ?_, ?_⟩
    · have := authorityAt_get authorities authorities.length hn
      rwa [Nat.mod_self] at this
    · rw [hatt, List.getLast?_map, List.getLast?_range, if_neg (by omega)]
      have e : m - 1 = authorities.length := by omega
      simp only [Option.map_some', e, attemptAt, outcomeAt, Nat.mod_self]
    · rw [hresp]; rfl
    · rw [herr]; rfl
  · have hL : ex.attempts.length = m + 1 := by rw [hatt]; simp
    refine ⟨by omega, by omega, hidx (m + 1) hatt, ?_⟩
    intro hall
    exfalso
    have hmem : attemptAt up req authorities netProtocol t m ∈ ex.attempts := by
      rw [hatt]
      exact List.mem_map.mpr ⟨m, List.mem_range.mpr (Nat.lt_succ_self m), rfl⟩
    have := hall _ hmem
    simp only [attemptAt] at this
    rw [hterm] at this
    cases this

/-- Witness of C3: three authorities, all down: four attempts, to the
authorities 0, 1, 2, 0, and the error of the fourth is returned. -/
theorem exchange_bounded_round_robin_witness :
    sampleAuthorities ≠ [] ∧
    exchange allDown sampleQuery sampleAuthorities "udp" 0 = Except.ok
      { resp := none, err := some "i/o timeout",
        attempts :=
          [ { nsIdx := 0, out := Outcome.failure none "i/o timeout",
              authority := { Address := "223.5.5.5:53", DomainName := "",
                             Timeout := 2000000000 } },
            { nsIdx := 1, out := Outcome.failure none "i/o timeout",
              authority := { Address := "223.6.6.6:53", DomainName := "",
                             Timeout := 2000000000 } },
            { nsIdx := 2, out := Outcome.failure none "i/o timeout",
              authority := { Address := "8.8.8.8:53", DomainName := "",
                             Timeout := 2000000000 } },
            { nsIdx := 0, out := Outcome.failure none "i/o timeout",
              authority := { Address := "223.5.5.5:53", DomainName := "",
                             Timeout := 2000000000 } } ] } ∧
    ∃ ex, exchange allDown sampleQuery sampleAuthorities "udp" 0 = Except.ok ex ∧
      1 ≤ ex.attempts.length ∧ ex.attempts.length ≤ sampleAuthorities.length + 1 :=
  ⟨by decide, by rfl,
    (exchange_bounded_round_robin allDown sampleQuery sampleAuthorities "udp" 0
      (by decide)).imp (fun _ h => ⟨h.1, h.2.1, h.2.2.1⟩)⟩

/-! ## Proofs: host table, reverse lookup -/

theorem findReverseLoop_first (lib : HostLib) (name : String) (e : hostname) :
    ∀ (pre post : hostlist),
      (∀ x ∈ pre, (lib.ReverseAddr x.ip).1 ≠ name) →
      name = (lib.ReverseAddr e.ip).1 →
      findReverseLoop lib name (pre ++ e :: post) = lib.Fqdn e.domain := by
  intro pre
  induction pre with
  | nil =>
    intro post _ hname
    simp [findReverseLoop, hname]
  | cons x rest ih =>
    intro post hpre hname
    have hx : name ≠ (lib.ReverseAddr x.ip).1 := fun h =>
      hpre x (List.mem_cons_self x rest) h.symm
    simp only [List.cons_append, findReverseLoop, if_neg hx]
    exact ih post (fun y hy => hpre y (List.mem_cons_of_mem x hy)) hname

theorem findReverseLoop_none (lib : HostLib) (name : String) :
    ∀ (hosts : hostlist), (∀ x ∈ hosts, (lib.ReverseAddr x.ip).1 ≠ name) →
      findReverseLoop lib name hosts = "" := by
  intro hosts
  induction hosts with
  | nil => intro _; rfl
  | cons x rest ih =>
    intro hall
    have hx : name ≠ (lib.ReverseAddr x.ip).1 := fun h =>
      hall x (List.mem_cons_self x rest) h.symm
    simp only [findReverseLoop, if_neg hx]
    exact ih (fun y hy => hall y (List.mem_cons_of_mem x hy))

theorem fqdn_ne_empty (s : String) : fqdn s ≠ "" := by
  unfold fqdn
  by_cases h : isFqdn s = true
  · rw [if_pos h]
    intro hs
    subst hs
    revert h
    decide
  · rw [if_neg h]
    intro hs
    have hlen := congrArg String.length hs
    rw [String.length_append] at hlen
    have h1 : ".".length = 1 := by decide
    have h0 : "".length = 0 := by decide
    omega

/-- C8: `FindReverse` round-trips through the host table.  For an entry `e`
of the table such that no earlier entry has an address with the same
reverse-zone name, `FindReverse` of the reverse-zone name of `e.ip` is
`Fqdn(e.domain)`; for a name that is the reverse-zone name of no entry it is
empty; and `PTRRecords` over that table emits exactly one PTR record with
that target in the first case and none in the second. -/
theorem FindReverse_round_trip (lib : HostLib) (hf : Hostsfile) (pre post : hostlist)
    (e : hostname)
    (htable : hf.hosts = pre ++ e :: post)
    (hfirst : ∀ x ∈ pre, (lib.ReverseAddr x.ip).1 ≠ (lib.ReverseAddr e.ip).1)
    (hfqdn : ∀ s, lib.Fqdn s ≠ "") :
    Hostsfile.FindReverse lib hf (lib.ReverseAddr e.ip).1 = (lib.Fqdn e.domain, none) ∧
    (∀ name, (∀ x ∈ hf.hosts, (lib.ReverseAddr x.ip).1 ≠ name) →
      Hostsfile.FindReverse lib hf name = ("", none)) ∧
    (∀ (w : World) (hd : DnsHandler) (ff : hostlist → String → List IP) (t : Nat)
        (q : Question),
      hd.hosts = Hostsfile.toHostfile lib ff (fun _ => hf) →
      (w.lib.ToLower q.Name = (lib.ReverseAddr e.ip).1 →
        PTRRecords w hd t q =
          ([{ Hdr := { Name := q.Name, Rrtype := TypePTR, Class := ClassINET, Ttl := 10 },
              Data := RData.PTR (lib.Fqdn e.domain) }], none)) ∧
      ((∀ x ∈ hf.hosts, (lib.ReverseAddr x.ip).1 ≠ w.lib.ToLower q.Name) →
        PTRRecords w hd t q = ([], none))) := by
  have h1 : Hostsfile.FindReverse lib hf (lib.ReverseAddr e.ip).1 =
      (lib.Fqdn e.domain, none) := by
    unfold Hostsfile.FindReverse
    rw [htable, findReverseLoop_first lib _ e pre post hfirst rfl]
  have h2 : ∀ name, (∀ x ∈ hf.hosts, (lib.ReverseAddr x.ip).1 ≠ name) →
      Hostsfile.FindReverse lib hf name = ("", none) := by
    intro name hall
    unfold Hostsfile.FindReverse
    rw [findReverseLoop_none lib name hf.hosts hall]
  refine ⟨h1, h2, ?_⟩
  intro w hd ff t q hhosts
  constructor
  · intro hname
    unfold PTRRecords
    simp only [hhosts, Hostsfile.toHostfile, hname, h1]
    rw [if_pos (hfqdn e.domain)]
  · intro hall
    unfold PTRRecords
    simp only [hhosts, Hostsfile.toHostfile, h2 _ hall]
    simp

/-- Witness of C8 (the case of the specification): the entry
`x.test. 10.0.0.1`, second in the table, and the name
`1.0.0.10.in-addr.arpa.`. -/
theorem FindReverse_round_trip_witness :
    Hostsfile.FindReverse miekgHostLib sampleHosts "1.0.0.10.in-addr.arpa." =
      ("x.test.", none) ∧
    Hostsfile.FindReverse miekgHostLib sampleHosts "2.0.0.10.in-addr.arpa." = ("", none) ∧
    PTRRecords sampleWorld sampleHandler 0
        { Name := "1.0.0.10.IN-ADDR.ARPA.", Qtype := TypePTR, Qclass := ClassINET } =
      ([{ Hdr := { Name := "1.0.0.10.IN-ADDR.ARPA.", Rrtype := TypePTR, Class := ClassINET,
                   Ttl := 10 },
          Data := RData.PTR "x.test." }], none) :=
  have key := FindReverse_round_trip miekgHostLib sampleHosts
    [{ domain := "localhost", ip := [127, 0, 0, 1], wildcard := false }]
    [{ domain := "six.test", wildcard := false,
       ip := [0, 0, 0, 0, 0, 0, 0, 0, 0, 0, 0, 0, 0, 0, 0, 1] }]
    { domain := "x.test.", ip := [10, 0, 0, 1], wildcard := false }
    (by rfl) (by decide) fqdn_ne_empty
  ⟨key.1, key.2.1 "2.0.0.10.in-addr.arpa." (by decide),
    (key.2.2 sampleWorld sampleHandler exactFindHosts 0
      { Name := "1.0.0.10.IN-ADDR.ARPA.", Qtype := TypePTR, Qclass := ClassINET }
      (by rfl)).1 (by decide)⟩

/-! ## Proofs: query resolver, the CHAOS class -/

theorem middlewareStage_absent (h : DnsHandler) (netProtocol : String) (q : Question)
    (s : Loop) (hm : h.middleware = none) :
    middlewareStage h netProtocol q s = Stage.pass s := by
  unfold middlewareStage
  rw [hm]

theorem middlewareStage_no_records (h : DnsHandler) (netProtocol : String) (q : Question)
    (s : Loop) (mw : Middleware) (hm : h.middleware = some mw)
    (hrec : (mw s.t q netProtocol).1 = []) :
    middlewareStage h netProtocol q s =
      Stage.pass { s with t := s.t + 1,
                          events := s.events ++ [Event.middleware q netProtocol] } := by
  unfold middlewareStage
  rw [hm]
  simp [hrec]

theorem hostsStage_other_type (h : DnsHandler) (q : Question) (name : String) (s : Loop)
    (hty : ¬ (q.Qtype = TypeA ∨ q.Qtype = TypeAAAA ∨ q.Qtype = TypeANY)) :
    hostsStage h q name s = Stage.pass s := by
  unfold hostsStage
  rw [if_neg hty]

theorem reverseStage_skip (w : World) (h : DnsHandler) (q : Question) (name : String)
    (s : Loop)
    (hno : ¬ ((q.Qtype = TypePTR ∧ HasSuffix name ".in-addr.arpa." = true) ∨
      HasSuffix name ".ip6.arpa." = true)) :
    reverseStage w h q name s = Stage.pass s := by
  unfold reverseStage
  rw [if_neg hno]

theorem chaosStage_version (h : DnsHandler) (q : Question) (s : Loop)
    (hclass : q.Qclass = ClassCHAOS) (htype : q.Qtype = TypeTXT) :
    chaosStage h q "version.bind." s =
      Stage.done { s with dnsResp :=
        { s.dnsResp with
          Authoritative := true,
          Answer := s.dnsResp.Answer ++
            [{ Hdr := { Name := q.Name, Rrtype := TypeTXT, Class := ClassCHAOS, Ttl := 0 },
               Data := RData.TXT [h.version] }] } } := by
  unfold chaosStage
  simp [hclass, htype]

theorem SetReply_new_Answer (req : Msg) : (Msg.SetReply Msg.new req).Answer = [] := by
  unfold Msg.SetReply
  cases req.Question <;> simp only [Msg.new] <;> split <;> rfl

/-- C7: for a request whose single question has class CHAOS, type TXT and a
name that lower-cases to `version.bind.`, with the middleware absent or
returning no records, the reply holds exactly one record in its answer
section, a TXT record of class CHAOS with TTL 0, the name of the question and
the version string as text; the reply is authoritative; and neither the cache
nor an upstream is called. -/
theorem chaos_version_bind (w : World) (h : DnsHandler) (req : Msg)
    (authorities : List Authority) (netProtocol : String) (t : Nat) (cache : Cache)
    (q : Question)
    (hq : req.Question = [q]) (hclass : q.Qclass = ClassCHAOS) (htype : q.Qtype = TypeTXT)
    (hname : w.lib.ToLower q.Name = "version.bind.")
    (hmw : ∀ mw, h.middleware = some mw → (mw t q netProtocol).1 = []) :
    ∃ s, ResolveDnsQuery w h req authorities netProtocol t cache = Except.ok s ∧
      s.dnsResp.Answer =
        [{ Hdr := { Name := q.Name, Rrtype := TypeTXT, Class := ClassCHAOS, Ttl := 0 },
           Data := RData.TXT [h.version] }] ∧
      s.dnsResp.Authoritative = true ∧
      s.cache = cache ∧
      s.events = (match h.middleware with
        | none => []
        | some _ => [Event.middleware q netProtocol]) ∧
      (∀ ev ∈ s.events, (∀ key, ev ≠ Event.cacheFetch key) ∧
        (∀ key value, ev ≠ Event.cacheSet key value) ∧
        ∀ r attempts, ev ≠ Event.exchange r attempts) := by
  have hA : ¬ (q.Qtype = TypeA ∨ q.Qtype = TypeAAAA ∨ q.Qtype = TypeANY) := by
    rw [htype]; decide
  have hP : ¬ ((q.Qtype = TypePTR ∧ HasSuffix "version.bind." ".in-addr.arpa." = true) ∨
      HasSuffix "version.bind." ".ip6.arpa." = true) := by
    rw [htype]; decide
  have hreply := SetReply_new_Answer req
  cases hm : h.middleware with
  | none =>
    refine ⟨{ dnsResp :=
                { Msg.SetReply Msg.new req with
                  Authoritative := true,
                  Answer := (Msg.SetReply Msg.new req).Answer ++
                    [{ Hdr := { Name := q.Name, Rrtype := TypeTXT, Class := ClassCHAOS,
                                Ttl := 0 },
                       Data := RData.TXT [h.version] }] },
              t := t, cache := cache, events := [] }, ?_, ?_, ?_, ?_, ?_, ?_⟩
    · unfold ResolveDnsQuery
      rw [hq]
      simp only [resolveQuestions, resolveQuestion, localStages, hname,
        middlewareStage_absent h netProtocol q _ hm, hostsStage_other_type h q _ _ hA,
        reverseStage_skip w h q _ _ hP, chaosStage_version h q _ hclass htype]
    · simp [hreply]
    · rfl
    · rfl
    · rfl
    · intro ev hev; cases hev
  | some mw =>
    have hrec := hmw mw hm
    refine ⟨{ dnsResp :=
                { Msg.SetReply Msg.new req with
                  Authoritative := true,
                  Answer := (Msg.SetReply Msg.new req).Answer ++
                    [{ Hdr := { Name := q.Name, Rrtype := TypeTXT, Class := ClassCHAOS,
                                Ttl := 0 },
                       Data := RData.TXT [h.version] }] },
              t := t + 1, cache := cache,
              events := [] ++ [Event.middleware q netProtocol] }, ?_, ?_, ?_, ?_, ?_, ?_⟩
    · unfold ResolveDnsQuery
      rw [hq]
      simp only [resolveQuestions, resolveQuestion, localStages, hname,
        middlewareStage_no_records h netProtocol q
          { dnsResp := Msg.SetReply Msg.new req, t := t, cache := cache, events := [] }
          mw hm hrec,
        hostsStage_other_type h q _ _ hA,
        reverseStage_skip w h q _ _ hP, chaosStage_version h q _ hclass htype]
    · simp [hreply]
    · rfl
    · rfl
    · rfl
    · intro ev hev
      simp only [List.nil_append, List.mem_singleton] at hev
      subst hev
      refine ⟨?_, ?_, ?_⟩ <;> intros <;> simp

/-- Witness of C7: the query `VERSION.BIND.` (upper case) to a handler
without middleware. -/
theorem chaos_version_bind_witness :
    ∃ s, ResolveDnsQuery sampleWorld versionedHandler versionQuery sampleAuthorities
        "udp" 0 [] = Except.ok s ∧
      s.dnsResp.Answer =
        [{ Hdr := { Name := "VERSION.BIND.", Rrtype := TypeTXT, Class := ClassCHAOS,
                    Ttl := 0 },
           Data := RData.TXT ["dnsproxy-1.0"] }] ∧
      s.dnsResp.Authoritative = true ∧
      s.cache = [] ∧
      s.events = [] ∧
      (∀ ev ∈ s.events, (∀ key, ev ≠ Event.cacheFetch key) ∧
        (∀ key value, ev ≠ Event.cacheSet key value) ∧
        ∀ r attempts, ev ≠ Event.exchange r attempts) :=
  chaos_version_bind sampleWorld versionedHandler versionQuery sampleAuthorities "udp" 0 []
    { Name := "VERSION.BIND.", Qtype := TypeTXT, Qclass := ClassCHAOS }
    (by rfl) (by rfl) (by rfl) (by decide) (by intro mw hmw; cases hmw)

/-! ## The reverse-lookup stage and questions that are not PTR questions -/

/-- C4, evaluated: a TXT question (class INET) whose name ends in `.ip6.arpa.`
reaches the reverse-lookup stage: `FindReverse` is consulted and a PTR record
is added to the reply. -/
theorem reverse_stage_on_txt_question :
    (ResolveDnsQuery sampleWorld sampleHandler txtReverseQuery sampleAuthorities
        "udp" 0 []).map (fun s => (s.dnsResp.Answer, s.events)) =
      Except.ok
        ([{ Hdr := { Name := loopback6Name, Rrtype := TypePTR, Class := ClassINET,
                     Ttl := 10 },
            Data := RData.PTR "six.test." }],
         [Event.findReverse loopback6Name]) := by
  rfl

/-! ## The handler and a message without a question -/

/-- C9, counterexample: on a message without a question `ServeDNS`, called
directly, faults at `req.Question[0]`; such a message is answered by the
serve mux in front of the handler and does not arrive through the server. -/
theorem ServeDNS_faults_without_question :
    ServeDNS sampleWorld sampleHandler false emptyQuery 0 [] =
      Except.error Fault.indexOutOfRange := by
  rfl

/-! ## The poller and the first tick -/

/-- C5, evaluated: the file has the same modification time and size at
construction and at the first tick, the poller is started, and the first
tick re-reads the file. -/
theorem first_tick_rereads_unchanged_file :
    steadyFile.hostsFileMetadata 1 "/etc/hosts" =
        steadyFile.hostsFileMetadata 0 "/etc/hosts" ∧
    ∃ h, NewHostsfile steadyFile oneEntryParser pollingConfig = Except.ok (h, true) ∧
      (monitorHostEntries steadyFile oneEntryParser h 0).reads = 0 ∧
      (monitorHostEntries steadyFile oneEntryParser h 1).reads = 1 := by
  refine ⟨rfl, _, rfl, ?_, ?_⟩
  · rfl
  · rfl

/-! ## Proofs: the local stages keep the response code and the cache -/

theorem localFrame_refl (s : Loop) : localFrame s s :=
  ⟨rfl, rfl, rfl, [], by simp, by intro e he; cases he⟩

theorem localFrame_trans {s1 s2 s3 : Loop} (h12 : localFrame s1 s2) (h23 : localFrame s2 s3) :
    localFrame s1 s3 := by
  obtain ⟨r1, x1, c1, e1, he1, hl1⟩ := h12
  obtain ⟨r2, x2, c2, e2, he2, hl2⟩ := h23
  refine ⟨r2.trans r1, x2.trans x1, c2.trans c1, e1 ++ e2, ?_, ?_⟩
  · rw [he2, he1, List.append_assoc]
  · intro e he
    rcases List.mem_append.mp he with h | h
    · exact hl1 e h
    · exact hl2 e h

theorem middlewareStage_frame (h : DnsHandler) (netProtocol : String) (q : Question)
    (s : Loop) :
    localFrame s (middlewareStage h netProtocol q s).loop ∧
      ∀ s', middlewareStage h netProtocol q s = Stage.pass s' → s'.dnsResp = s.dnsResp := by
  unfold middlewareStage
  cases h.middleware with
  | none => exact ⟨localFrame_refl s, fun s' hs => by cases hs; rfl⟩
  | some mw =>
    dsimp only
    split
    · refine ⟨⟨rfl, rfl, rfl, [Event.middleware q netProtocol], rfl, ?_⟩, ?_⟩
      · intro e he
        rw [List.mem_singleton.mp he]; rfl
      · intro s' hs; cases hs
    · refine ⟨⟨rfl, rfl, rfl, [Event.middleware q netProtocol], rfl, ?_⟩, ?_⟩
      · intro e he
        rw [List.mem_singleton.mp he]; rfl
      · intro s' hs; cases hs; rfl

theorem hostsStage_frame (h : DnsHandler) (q : Question) (name : String) (s : Loop) :
    localFrame s (hostsStage h q name s).loop ∧
      ∀ s', hostsStage h q name s = Stage.pass s' → s'.dnsResp = s.dnsResp := by
  unfold hostsStage
  split
  · dsimp only
    split
    · refine ⟨⟨rfl, rfl, rfl, [Event.findHosts name], rfl, ?_⟩, ?_⟩
      · intro e he
        rw [List.mem_singleton.mp he]; rfl
      · intro s' hs; cases hs
    · refine ⟨⟨rfl, rfl, rfl, [Event.findHosts name], rfl, ?_⟩, ?_⟩
      · intro e he
        rw [List.mem_singleton.mp he]; rfl
      · intro s' hs; cases hs; rfl
  · exact ⟨localFrame_refl s, fun s' hs => by cases hs; rfl⟩

theorem reverseStage_frame (w : World) (h : DnsHandler) (q : Question) (name : String)
    (s : Loop) :
    localFrame s (reverseStage w h q name s).loop ∧
      ∀ s', reverseStage w h q name s = Stage.pass s' → s'.dnsResp = s.dnsResp := by
  unfold reverseStage
  split
  · dsimp only
    split
    · refine ⟨⟨rfl, rfl, rfl, [Event.findReverse (w.lib.ToLower q.Name)], rfl, ?_⟩, ?_⟩
      · intro e he
        rw [List.mem_singleton.mp he]; rfl
      · intro s' hs; cases hs
    · refine ⟨⟨rfl, rfl, rfl, [Event.findReverse (w.lib.ToLower q.Name)], rfl, ?_⟩, ?_⟩
      · intro e he
        rw [List.mem_singleton.mp he]; rfl
      · intro s' hs; cases hs; rfl
  · exact ⟨localFrame_refl s, fun s' hs => by cases hs; rfl⟩

theorem chaosStage_frame (h : DnsHandler) (q : Question) (name : String) (s : Loop) :
    localFrame s (chaosStage h q name s).loop ∧
      ∀ s', chaosStage h q name s = Stage.pass s' → s'.dnsResp = s.dnsResp := by
  unfold chaosStage
  split
  · refine ⟨⟨?_, ?_, rfl, [], by simp [Stage.loop], by intro e he; cases he⟩, ?_⟩
    · simp only [Stage.loop]
      split <;> (try split) <;> (try split) <;> rfl
    · simp only [Stage.loop]
      split <;> (try split) <;> (try split) <;> rfl
    · intro s' hs; cases hs
  · exact ⟨localFrame_refl s, fun s' hs => by cases hs; rfl⟩

theorem localStages_frame (w : World) (h : DnsHandler) (netProtocol : String) (q : Question)
    (s : Loop) :
    localFrame s (localStages w h netProtocol q s).loop ∧
      ∀ s', localStages w h netProtocol q s = Stage.pass s' → s'.dnsResp = s.dnsResp := by
  unfold localStages
  dsimp only
  have f1 := middlewareStage_frame h netProtocol q s
  cases h1 : middlewareStage h netProtocol q s with
  | done s1 =>
    rw [h1] at f1
    exact ⟨f1.1, fun s' hs => by cases hs⟩
  | pass s1 =>
    rw [h1] at f1
    have d1 : s1.dnsResp = s.dnsResp := f1.2 s1 rfl
    have f2 := hostsStage_frame h q (w.lib.ToLower q.Name) s1
    dsimp only
    cases h2 : hostsStage h q (w.lib.ToLower q.Name) s1 with
    | done s2 =>
      rw [h2] at f2
      exact ⟨localFrame_trans f1.1 f2.1, fun s' hs => by cases hs⟩
    | pass s2 =>
      rw [h2] at f2
      have d2 : s2.dnsResp = s1.dnsResp := f2.2 s2 rfl
      have f3 := reverseStage_frame w h q (w.lib.ToLower q.Name) s2
      dsimp only
      cases h3 : reverseStage w h q (w.lib.ToLower q.Name) s2 with
      | done s3 =>
        rw [h3] at f3
        exact ⟨localFrame_trans (localFrame_trans f1.1 f2.1) f3.1,
          fun s' hs => by cases hs⟩
      | pass s3 =>
        rw [h3] at f3
        have d3 : s3.dnsResp = s2.dnsResp := f3.2 s3 rfl
        have f4 := chaosStage_frame h q (w.lib.ToLower q.Name) s3
        dsimp only
        refine ⟨localFrame_trans (localFrame_trans (localFrame_trans f1.1 f2.1) f3.1) f4.1,
          ?_⟩
        intro s' hs
        rw [f4.2 s' hs, d3, d2, d1]

/-! ## Proofs: the cached upstream exchange -/

theorem getLast?_map_range_succ (f : Nat → Attempt) (k : Nat) :
    ((List.range (k + 1)).map f).getLast? = some (f k) := by
  rw [List.range_succ, List.map_append, List.map_singleton, List.getLast?_concat]

/-- On a non-empty authority list `exchange` returns the response and the
error of its last attempt. -/
theorem exchange_last (up : Upstream) (req : Msg) (authorities : List Authority)
    (netProtocol : String) (t : Nat) (hne : authorities ≠ []) :
    ∃ ex last, exchange up req authorities netProtocol t = Except.ok ex ∧
      ex.attempts.getLast? = some last ∧
      ex.resp = last.out.resp ∧ ex.err = last.out.err := by
  have hn : 0 < authorities.length := List.length_pos.mpr hne
  obtain ⟨ex, m, hrun, _, _, hcase⟩ := exchange_cases up req authorities netProtocol t hn
  rcases hcase with ⟨hmr, hatt, hresp, herr⟩ | ⟨_, _, hatt, hresp, herr⟩
  · refine ⟨ex, attemptAt up req authorities netProtocol t authorities.length, hrun, ?_,
      hresp, herr⟩
    rw [hatt, hmr, getLast?_map_range_succ]
  · refine ⟨ex, attemptAt up req authorities netProtocol t m, hrun, ?_, hresp, herr⟩
    rw [hatt, getLast?_map_range_succ]

theorem lookup_mem (key : String) (v : Option Msg) :
    ∀ (c : Cache), c.lookup key = some v → ∃ k, (k, v) ∈ c := by
  intro c
  induction c with
  | nil => intro h; simp [List.lookup] at h
  | cons kv rest ih =>
    intro h
    obtain ⟨k, x⟩ := kv
    rw [List.lookup] at h
    split at h
    · cases h
      exact ⟨k, List.mem_cons_self _ _⟩
    · obtain ⟨k', hk'⟩ := ih h
      exact ⟨k', List.mem_cons_of_mem _ hk'⟩

/-- The three ways in which the cached upstream exchange ends on a non-empty
authority list and a cache without nil values: a hit, a miss whose producer
returns the answer of its last attempt, a miss whose producer returns the
error of its last attempt. -/
theorem upstreamStage_cases (w : World) (req : Msg) (authorities : List Authority)
    (netProtocol : String) (q : Question) (s : Loop)
    (hne : authorities ≠ []) (hc : Cache.noNil s.cache) :
    (∃ k v, (k, some v) ∈ s.cache ∧
      upstreamStage w req authorities netProtocol q s = Except.ok (Flow.next,
        { dnsResp := { s.dnsResp with Answer := s.dnsResp.Answer ++ v.Answer,
                                      Extra := s.dnsResp.Extra ++ v.Extra },
          t := s.t + 1, cache := s.cache,
          events := s.events ++ [Event.cacheFetch (cacheKey w netProtocol q)] })) ∨
    (∃ ex last resp,
      exchange w.up (upstreamRequest req q) authorities netProtocol (s.t + 1) =
        Except.ok ex ∧
      ex.attempts.getLast? = some last ∧ last.out = Outcome.answer resp ∧
      upstreamStage w req authorities netProtocol q s = Except.ok (Flow.next,
        { dnsResp := { s.dnsResp with Answer := s.dnsResp.Answer ++ resp.Answer,
                                      Extra := s.dnsResp.Extra ++ resp.Extra },
          t := s.t + 1 + ex.attempts.length + 1,
          cache := (cacheKey w netProtocol q, some resp) :: s.cache,
          events := s.events ++ [Event.cacheFetch (cacheKey w netProtocol q)] ++
            [Event.exchange (upstreamRequest req q) ex.attempts] ++
            [Event.cacheSet (cacheKey w netProtocol q) (some resp)] })) ∨
    (∃ ex last r e,
      exchange w.up (upstreamRequest req q) authorities netProtocol (s.t + 1) =
        Except.ok ex ∧
      ex.attempts.getLast? = some last ∧ last.out = Outcome.failure r e ∧
      upstreamStage w req authorities netProtocol q s = Except.ok (Flow.stop,
        { dnsResp := Msg.SetRcode s.dnsResp s.dnsResp RcodeNameError,
          t := s.t + 1 + ex.attempts.length,
          cache := s.cache,
          events := s.events ++ [Event.cacheFetch (cacheKey w netProtocol q)] ++
            [Event.exchange (upstreamRequest req q) ex.attempts] })) := by
  cases hitem : (if w.cacheLive s.t (cacheKey w netProtocol q) = true
      then s.cache.lookup (cacheKey w netProtocol q) else none) with
  | some value =>
    left
    have hlook : s.cache.lookup (cacheKey w netProtocol q) = some value := by
      by_cases hl : w.cacheLive s.t (cacheKey w netProtocol q) = true
      · rw [if_pos hl] at hitem; exact hitem
      · rw [if_neg hl] at hitem; cases hitem
    obtain ⟨k, hk⟩ := lookup_mem _ _ _ hlook
    cases value with
    | none => exact absurd rfl (hc _ hk)
    | some v =>
      refine ⟨k, v, hk, ?_⟩
      unfold upstreamStage rcacheFetch
      simp only [hitem]
  | none =>
    right
    obtain ⟨ex, last, hrun, hlast, hresp, herr⟩ :=
      exchange_last w.up (upstreamRequest req q) authorities netProtocol (s.t + 1) hne
    cases hout : last.out with
    | answer resp =>
      left
      rw [hout] at hresp herr
      refine ⟨ex, last, resp, hrun, hlast, hout, ?_⟩
      unfold upstreamStage rcacheFetch producer
      simp only [hitem, hrun, herr, hresp, Outcome.err, Outcome.resp]
    | failure r e =>
      right
      rw [hout] at hresp herr
      refine ⟨ex, last, r, e, hrun, hlast, hout, ?_⟩
      unfold upstreamStage rcacheFetch producer
      simp only [hitem, hrun, herr, hresp, Outcome.err, Outcome.resp]

/-! ## Proofs: the response code of the reply -/

theorem mem_of_mem_append_local {ev : Event} {evs old : List Event}
    (hloc : ∀ e ∈ evs, e.isLocal = true) (hnot : ev.isLocal = false)
    (hmem : ev ∈ old ++ evs) : ev ∈ old := by
  rcases List.mem_append.mp hmem with h | h
  · exact h
  · rw [hloc ev h] at hnot; cases hnot

theorem running_of_localFrame {s s' : Loop} (hs : Loop.running s) (hf : localFrame s s') :
    Loop.running s' := by
  obtain ⟨⟨hnil, hst⟩, hrc, hok⟩ := hs
  obtain ⟨frc, _, fc, evs, fev, floc⟩ := hf
  refine ⟨⟨?_, ?_⟩, ?_, ?_⟩
  · rw [Cache.noNil, fc]; exact hnil
  · intro r attempts hmem
    rw [fev] at hmem
    have hold := @mem_of_mem_append_local (Event.exchange r attempts) _ _ floc rfl hmem
    obtain ⟨last, hlast, hans⟩ := hst r attempts hold
    refine ⟨last, hlast, ?_⟩
    intro resp hresp
    obtain ⟨key, hset, hcache⟩ := hans resp hresp
    refine ⟨key, ?_, ?_⟩
    · rw [fev]; exact List.mem_append_left _ hset
    · rw [fc]; exact hcache
  · rw [frc]; exact hrc
  · intro r attempts last hmem hlast
    rw [fev] at hmem
    exact hok r attempts last
      (@mem_of_mem_append_local (Event.exchange r attempts) _ _ floc rfl hmem) hlast

theorem SetRcode_Rcode (m request : Msg) (rcode : Nat) :
    (Msg.SetRcode m request rcode).Rcode = rcode := rfl

theorem SetReply_Answer (m request : Msg) : (Msg.SetReply m request).Answer = m.Answer := by
  unfold Msg.SetReply
  cases request.Question <;> dsimp only <;> split <;> rfl

theorem SetReply_Extra (m request : Msg) : (Msg.SetReply m request).Extra = m.Extra := by
  unfold Msg.SetReply
  cases request.Question <;> dsimp only <;> split <;> rfl

theorem SetReply_Rcode (m request : Msg) : (Msg.SetReply m request).Rcode = RcodeSuccess := by
  unfold Msg.SetReply
  cases request.Question <;> rfl

theorem SetRcode_Answer (m request : Msg) (rcode : Nat) :
    (Msg.SetRcode m request rcode).Answer = m.Answer :=
  SetReply_Answer m request

theorem SetRcode_Extra (m request : Msg) (rcode : Nat) :
    (Msg.SetRcode m request rcode).Extra = m.Extra :=
  SetReply_Extra m request

/-- One question, from a running state: the body of the loop does not fault;
it continues in a running state or breaks in a broken one. -/
theorem resolveQuestion_inv (w : World) (h : DnsHandler) (req : Msg)
    (authorities : List Authority) (netProtocol : String) (q : Question) (s : Loop)
    (hne : authorities ≠ []) (hs : Loop.running s) :
    ∃ flow s', resolveQuestion w h req authorities netProtocol q s = Except.ok (flow, s') ∧
      (flow = Flow.next → Loop.running s') ∧ (flow = Flow.stop → Loop.broken s') := by
  have hf := (localStages_frame w h netProtocol q s).1
  unfold resolveQuestion
  cases hl : localStages w h netProtocol q s with
  | done s1 =>
    rw [hl] at hf
    exact ⟨Flow.next, s1, rfl, fun _ => running_of_localFrame hs hf, fun hc => by cases hc⟩
  | pass s1 =>
    rw [hl] at hf
    have hs1 : Loop.running s1 := running_of_localFrame hs hf
    obtain ⟨⟨hnil, hst⟩, hrc, hok⟩ := hs1
    dsimp only
    rcases upstreamStage_cases w req authorities netProtocol q s1 hne hnil with
      ⟨k, v, _, hrun⟩ | ⟨ex, last, resp, _, hlast, hout, hrun⟩ |
      ⟨ex, last, r, e, _, hlast, hout, hrun⟩
    · refine ⟨_, _, hrun, fun _ => ⟨⟨hnil, ?_⟩, hrc, ?_⟩, fun hc => by cases hc⟩
      · intro r attempts hmem
        have hold : Event.exchange r attempts ∈ s1.events := by
          rcases List.mem_append.mp hmem with h1 | h1
          · exact h1
          · simp at h1
        obtain ⟨l, hl1, hans⟩ := hst r attempts hold
        refine ⟨l, hl1, fun resp hresp => ?_⟩
        obtain ⟨key, hset, hcache⟩ := hans resp hresp
        exact ⟨key, List.mem_append_left _ hset, hcache⟩
      · intro r attempts l hmem hl1
        have hold : Event.exchange r attempts ∈ s1.events := by
          rcases List.mem_append.mp hmem with h1 | h1
          · exact h1
          · simp at h1
        exact hok r attempts l hold hl1
    · refine ⟨_, _, hrun, fun _ => ⟨⟨?_, ?_⟩, hrc, ?_⟩, fun hc => by cases hc⟩
      · intro kv hkv
        rcases List.mem_cons.mp hkv with h1 | h1
        · rw [h1]; simp
        · exact hnil kv h1
      · intro r attempts hmem
        simp only [List.append_assoc, List.mem_append, List.mem_singleton,
          List.mem_cons, List.not_mem_nil, or_false] at hmem
        rcases hmem with h1 | h1 | h1 | h1
        · obtain ⟨l, hl1, hans⟩ := hst r attempts h1
          refine ⟨l, hl1, fun resp2 hresp => ?_⟩
          obtain ⟨key, hset, hcache⟩ := hans resp2 hresp
          refine ⟨key, ?_, List.mem_cons_of_mem _ hcache⟩
          simp only [List.append_assoc, List.mem_append]
          exact Or.inl hset
        · cases h1
        · cases h1
          refine ⟨last, hlast, fun resp2 hresp => ?_⟩
          rw [hout] at hresp
          cases hresp
          refine ⟨cacheKey w netProtocol q, ?_, List.mem_cons_self _ _⟩
          simp
        · cases h1
      · intro r attempts l hmem hl1
        simp only [List.append_assoc, List.mem_append, List.mem_singleton,
          List.mem_cons, List.not_mem_nil, or_false] at hmem
        rcases hmem with h1 | h1 | h1 | h1
        · exact hok r attempts l h1 hl1
        · cases h1
        · cases h1
          rw [hlast] at hl1
          cases hl1
          rw [hout]; rfl
        · cases h1
    · refine ⟨_, _, hrun, fun hc => (by cases hc), fun _ => ⟨⟨hnil, ?_⟩, rfl, ?_⟩⟩
      · intro r2 attempts hmem
        simp only [List.append_assoc, List.mem_append, List.mem_singleton,
          List.mem_cons, List.not_mem_nil, or_false] at hmem
        rcases hmem with h1 | h1 | h1
        · obtain ⟨l, hl1, hans⟩ := hst r2 attempts h1
          refine ⟨l, hl1, fun resp2 hresp => ?_⟩
          obtain ⟨key, hset, hcache⟩ := hans resp2 hresp
          refine ⟨key, ?_, hcache⟩
          simp only [List.append_assoc, List.mem_append]
          exact Or.inl hset
        · cases h1
        · cases h1
          refine ⟨last, hlast, fun resp2 hresp => ?_⟩
          rw [hout] at hresp
          cases hresp
      · refine ⟨upstreamRequest req q, ex.attempts, last, ?_, hlast, ?_⟩
        · simp
        · rw [hout]; simp [Outcome.err]

/-- The loop over the questions, from a running state: it does not fault; it
ends in a running state or in a broken one. -/
theorem resolveQuestions_inv (w : World) (h : DnsHandler) (req : Msg)
    (authorities : List Authority) (netProtocol : String) (hne : authorities ≠ []) :
    ∀ (qs : List Question) (s : Loop), Loop.running s →
      ∃ flow s', resolveQuestions w h req authorities netProtocol qs s =
          Except.ok (flow, s') ∧
        (flow = Flow.next → Loop.running s') ∧ (flow = Flow.stop → Loop.broken s') := by
  intro qs
  induction qs with
  | nil =>
    intro s hs
    exact ⟨Flow.next, s, rfl, fun _ => hs, fun hc => (by cases hc)⟩
  | cons q rest ih =>
    intro s hs
    obtain ⟨flow, s1, hrun, hnext, hstop⟩ :=
      resolveQuestion_inv w h req authorities netProtocol q s hne hs
    cases flow with
    | next =>
      obtain ⟨flow2, s2, hrun2, hnext2, hstop2⟩ := ih s1 (hnext rfl)
      refine ⟨flow2, s2, ?_, hnext2, hstop2⟩
      rw [resolveQuestions, hrun]
      exact hrun2
    | stop =>
      refine ⟨Flow.stop, s1, ?_, fun hc => (by cases hc), fun _ => hstop rfl⟩
      rw [resolveQuestions, hrun]

theorem running_init (req : Msg) (t : Nat) (cache : Cache) (hcache : Cache.noNil cache) :
    Loop.running { dnsResp := Msg.SetReply Msg.new req, t := t, cache := cache, events := [] } :=
  ⟨⟨hcache, fun _ _ hmem => by cases hmem⟩, SetReply_Rcode _ _,
    fun _ _ _ hmem => by cases hmem⟩

/-- C10: the response code of the reply.  On a non-empty authority list (and
a cache without nil values) `ResolveDnsQuery` returns a reply whose response
code is name-error exactly when the producer run of some question ended with
a transport error on its last attempt, and success otherwise; whatever code
an upstream response carries, when the last attempt of a producer run was
answered that response was set in the cache and is held by it. -/
theorem reply_rcode (w : World) (h : DnsHandler) (req : Msg) (authorities : List Authority)
    (netProtocol : String) (t : Nat) (cache : Cache)
    (hne : authorities ≠ []) (hcache : Cache.noNil cache) :
    ∃ s, ResolveDnsQuery w h req authorities netProtocol t cache = Except.ok s ∧
      (s.dnsResp.Rcode = RcodeNameError ↔
        ∃ r attempts last, Event.exchange r attempts ∈ s.events ∧
          attempts.getLast? = some last ∧ last.out.err ≠ none) ∧
      (s.dnsResp.Rcode ≠ RcodeNameError → s.dnsResp.Rcode = RcodeSuccess) ∧
      (∀ r attempts, Event.exchange r attempts ∈ s.events →
        ∃ last, attempts.getLast? = some last ∧
          ∀ resp, last.out = Outcome.answer resp →
            ∃ key, Event.cacheSet key (some resp) ∈ s.events ∧
              (key, some resp) ∈ s.cache) ∧
      Cache.noNil s.cache := by
  obtain ⟨flow, s, hrun, hnext, hstop⟩ :=
    resolveQuestions_inv w h req authorities netProtocol hne req.Question _
      (running_init req t cache hcache)
  refine ⟨s, ?_, ?_⟩
  · unfold ResolveDnsQuery
    simp only [hrun]
  · cases flow with
    | next =>
      obtain ⟨⟨hnil, hst⟩, hrc, hok⟩ := hnext rfl
      refine ⟨⟨?_, ?_⟩, fun _ => hrc, hst, hnil⟩
      · intro hname
        rw [hrc] at hname
        exact absurd hname (by decide)
      · rintro ⟨r, attempts, last, hmem, hlast, herr⟩
        exact absurd (hok r attempts last hmem hlast) herr
    | stop =>
      obtain ⟨⟨hnil, hst⟩, hrc, hfail⟩ := hstop rfl
      exact ⟨⟨fun _ => hfail, fun _ => hrc⟩, fun hc => absurd hrc hc, hst, hnil⟩

/-- Witness of C10: two questions, three authorities, all down, an empty
cache: the first producer run ends with a transport error and the reply has
the response code name-error. -/
theorem reply_rcode_witness :
    sampleAuthorities ≠ [] ∧ Cache.noNil [] ∧
    (ResolveDnsQuery sampleWorld sampleHandler twoQuestions sampleAuthorities
        "udp" 0 []).map (fun s => s.dnsResp.Rcode) = Except.ok RcodeNameError ∧
    ∃ s, ResolveDnsQuery sampleWorld sampleHandler twoQuestions sampleAuthorities
        "udp" 0 [] = Except.ok s ∧
      (s.dnsResp.Rcode = RcodeNameError ↔
        ∃ r attempts last, Event.exchange r attempts ∈ s.events ∧
          attempts.getLast? = some last ∧ last.out.err ≠ none) :=
  ⟨by decide, fun _ hkv => (by cases hkv), by rfl,
    (reply_rcode sampleWorld sampleHandler twoQuestions sampleAuthorities "udp" 0 []
      (by decide) (fun _ hkv => (by cases hkv))).imp (fun _ hs => ⟨hs.1, hs.2.1⟩)⟩

/-! ## Proofs: a failing fetch aborts the batch -/

theorem resolveQuestions_append (w : World) (h : DnsHandler) (req : Msg)
    (authorities : List Authority) (netProtocol : String) (rest : List Question) :
    ∀ (pre : List Question) (s0 s1 : Loop),
      resolveQuestions w h req authorities netProtocol pre s0 = Except.ok (Flow.next, s1) →
      resolveQuestions w h req authorities netProtocol (pre ++ rest) s0 =
        resolveQuestions w h req authorities netProtocol rest s1 := by
  intro pre
  induction pre with
  | nil =>
    intro s0 s1 hpre
    rw [resolveQuestions] at hpre
    cases hpre
    rfl
  | cons q qs ih =>
    intro s0 s1 hpre
    rw [resolveQuestions] at hpre
    rw [List.cons_append, resolveQuestions]
    cases hq : resolveQuestion w h req authorities netProtocol q s0 with
    | error f => rw [hq] at hpre; cases hpre
    | ok r =>
      obtain ⟨flow, s⟩ := r
      rw [hq] at hpre
      cases flow with
      | stop => cases hpre
      | next => exact ih s s1 hpre

theorem rcacheFetch_dnsResp (w : World) (req : Msg) (authorities : List Authority)
    (netProtocol : String) (q : Question) (key : String) (s s' : Loop)
    (r : Except String (Option Msg))
    (hfetch : rcacheFetch w key (producer w req authorities netProtocol q) s =
      Except.ok (r, s')) :
    s'.dnsResp = s.dnsResp := by
  unfold rcacheFetch at hfetch
  dsimp only at hfetch
  split at hfetch
  · cases hfetch; rfl
  · unfold producer at hfetch
    dsimp only at hfetch
    cases hex : exchange w.up (upstreamRequest req q) authorities netProtocol (s.t + 1) with
    | error f => rw [hex] at hfetch; cases hfetch
    | ok ex =>
      rw [hex] at hfetch
      dsimp only at hfetch
      cases herr : ex.err with
      | some e => rw [herr] at hfetch; cases hfetch; rfl
      | none => rw [herr] at hfetch; cases hfetch; rfl

theorem resolveQuestions_questions_irrelevant (w : World) (h : DnsHandler) (req : Msg)
    (authorities : List Authority) (netProtocol : String) (other : List Question) :
    ∀ (qs : List Question) (s : Loop),
      resolveQuestions w h { req with Question := other } authorities netProtocol qs s =
        resolveQuestions w h req authorities netProtocol qs s := by
  intro qs
  induction qs with
  | nil => intro s; rfl
  | cons q rest ih =>
    intro s
    rw [resolveQuestions, resolveQuestions]
    have hstep : resolveQuestion w h { req with Question := other } authorities netProtocol
        q s = resolveQuestion w h req authorities netProtocol q s := rfl
    rw [hstep]
    cases resolveQuestion w h req authorities netProtocol q s with
    | error f => rfl
    | ok r =>
      obtain ⟨flow, s1⟩ := r
      cases flow with
      | stop => rfl
      | next => exact ih s1

theorem SetReply_head (m req : Msg) (pre rest rest' : List Question) (q : Question)
    (hq : req.Question = pre ++ q :: rest) :
    Msg.SetReply m { req with Question := pre ++ q :: rest' } = Msg.SetReply m req := by
  unfold Msg.SetReply
  rw [hq]
  cases pre <;> rfl

/-- C6: a failing fetch aborts the batch.  When the questions before `qi` are
processed without a `break`, `qi` falls through the local stages and the
cached upstream exchange for `qi` fails, then the reply has the response code
name-error, its answer and additional sections are those built for the
questions before `qi`, the trace ends with the failed fetch, and the result
is the same whatever questions follow `qi`: none of them is processed. -/
theorem fetch_failure_aborts (w : World) (h : DnsHandler) (req : Msg)
    (authorities : List Authority) (netProtocol : String) (t : Nat) (cache : Cache)
    (pre post : List Question) (qi : Question) (s1 s2 s3 : Loop) (e : String)
    (hq : req.Question = pre ++ qi :: post)
    (hpre : resolveQuestions w h req authorities netProtocol pre
      { dnsResp := Msg.SetReply Msg.new req, t := t, cache := cache, events := [] } =
        Except.ok (Flow.next, s1))
    (hlocal : localStages w h netProtocol qi s1 = Stage.pass s2)
    (hfetch : rcacheFetch w (cacheKey w netProtocol qi)
      (producer w req authorities netProtocol qi) s2 = Except.ok (Except.error e, s3)) :
    ∃ s, ResolveDnsQuery w h req authorities netProtocol t cache = Except.ok s ∧
      s.dnsResp.Rcode = RcodeNameError ∧
      s.dnsResp.Answer = s1.dnsResp.Answer ∧
      s.dnsResp.Extra = s1.dnsResp.Extra ∧
      s.events = s3.events ∧ s.t = s3.t ∧ s.cache = s3.cache ∧
      ∀ post', ResolveDnsQuery w h { req with Question := pre ++ qi :: post' } authorities
        netProtocol t cache = Except.ok s := by
  have hd2 : s2.dnsResp = s1.dnsResp := (localStages_frame w h netProtocol qi s1).2 s2 hlocal
  have hd3 : s3.dnsResp = s2.dnsResp :=
    rcacheFetch_dnsResp w req authorities netProtocol qi _ s2 s3 _ hfetch
  have hstep : resolveQuestion w h req authorities netProtocol qi s1 =
      Except.ok (Flow.stop,
        { s3 with dnsResp := Msg.SetRcode s3.dnsResp s3.dnsResp RcodeNameError }) := by
    simp only [resolveQuestion, hlocal, upstreamStage, hfetch]
  have hloop : ∀ rest, resolveQuestions w h req authorities netProtocol (pre ++ qi :: rest)
      { dnsResp := Msg.SetReply Msg.new req, t := t, cache := cache, events := [] } =
      Except.ok (Flow.stop,
        { s3 with dnsResp := Msg.SetRcode s3.dnsResp s3.dnsResp RcodeNameError }) := by
    intro rest
    rw [resolveQuestions_append w h req authorities netProtocol (qi :: rest) pre _ s1 hpre,
      resolveQuestions, hstep]
  refine ⟨{ s3 with dnsResp := Msg.SetRcode s3.dnsResp s3.dnsResp RcodeNameError },
    ?_, rfl, ?_, ?_, rfl, rfl, rfl, ?_⟩
  · unfold ResolveDnsQuery
    rw [hq]
    simp only [hloop post]
  · rw [← hd2, ← hd3]
    exact SetRcode_Answer _ _ _
  · rw [← hd2, ← hd3]
    exact SetRcode_Extra _ _ _
  · intro post'
    unfold ResolveDnsQuery
    simp only [resolveQuestions_questions_irrelevant,
      SetReply_head Msg.new req pre post post' qi hq, hloop post']

/-- Witness of C6: two questions and an upstream that is down; the fetch for
the first question fails and the second question is not processed. -/
theorem fetch_failure_aborts_witness :
    ∃ s, ResolveDnsQuery sampleWorld sampleHandler twoQuestions sampleAuthorities
        "udp" 0 [] = Except.ok s ∧
      s.dnsResp.Rcode = RcodeNameError ∧
      s.dnsResp.Answer = [] ∧
      s.events.length = 3 ∧
      ∀ post', ResolveDnsQuery sampleWorld sampleHandler
        { twoQuestions with
          Question := [] ++ { Name := "example.com.", Qtype := TypeA,
                              Qclass := ClassINET } :: post' }
        sampleAuthorities "udp" 0 [] = Except.ok s := by
  obtain ⟨s, hrun, hrc, hans, _, hev, _, _, hpost⟩ :=
    fetch_failure_aborts sampleWorld sampleHandler twoQuestions sampleAuthorities "udp" 0 []
      [] [{ Name := "example.org.", Qtype := TypeA, Qclass := ClassINET }]
      { Name := "example.com.", Qtype := TypeA, Qclass := ClassINET }
      _ _ _ _ (by rfl) (by rfl) (by rfl) (by rfl)
  exact ⟨s, hrun, hrc, hans, by rw [hev]; rfl, hpost⟩

/-! ## The handler and a message with a question; companion results -/

theorem LeadAuthority_ne_nil (authorities results : List Authority) (d : String)
    (hlead : LeadAuthority authorities d = Except.ok results) : results ≠ [] := by
  have heq := LeadAuthority_eq authorities d
  rw [hlead] at heq
  by_cases h1 : suffixTier authorities d ≠ []
  · rw [if_pos h1] at heq
    cases heq
    exact h1
  · rw [if_neg h1] at heq
    by_cases h2 : defaultTier authorities ≠ []
    · rw [if_pos h2] at heq
      cases heq
      exact h2
    · rw [if_neg h2] at heq
      cases heq

/-- On a non-empty authority list `exchange` does not fault and every cursor
value it indexes the list with is within bounds. -/
theorem exchange_in_bounds (up : Upstream) (req : Msg) (authorities : List Authority)
    (netProtocol : String) (t : Nat) (hne : authorities ≠ []) :
    ∃ ex, exchange up req authorities netProtocol t = Except.ok ex ∧
      ∀ a ∈ ex.attempts, a.nsIdx < authorities.length := by
  have hn : 0 < authorities.length := List.length_pos.mpr hne
  obtain ⟨ex, m, hrun, _, _, hcase⟩ := exchange_cases up req authorities netProtocol t hn
  have hall : ∀ L, ex.attempts =
      (List.range L).map (fun i => attemptAt up req authorities netProtocol t i) →
      ∀ a ∈ ex.attempts, a.nsIdx < authorities.length := by
    intro L hatt a ha
    rw [hatt] at ha
    obtain ⟨i, _, hi⟩ := List.mem_map.mp ha
    rw [← hi]
    exact Nat.mod_lt i hn
  refine ⟨ex, hrun, ?_⟩
  rcases hcase with ⟨_, hatt, _, _⟩ | ⟨_, _, hatt, _, _⟩
  · exact hall m hatt
  · exact hall (m + 1) hatt

/-- C9, amended: for every inbound message with at least one question, every
configuration and every upstream (and a cache without nil values), `ServeDNS`
and the functions it calls complete without a runtime fault: either no
authority is found and nothing is written, or a reply is written;
`req.Question[0]` is within bounds, and every `authorities[nsIdx]` that
`exchange` evaluates on the list returned by `LeadAuthority` is within
bounds. -/
theorem ServeDNS_no_fault_with_question (w : World) (h : DnsHandler) (remoteIsTCP : Bool)
    (req : Msg) (t : Nat) (cache : Cache)
    (hq : req.Question ≠ []) (hcache : Cache.noNil cache) :
    (∃ r, ServeDNS w h remoteIsTCP req t cache = Except.ok r) ∧
    ∃ q0, req.Question[0]? = some q0 ∧
      ∀ authorities, LeadAuthority h.Authorities q0.Name = Except.ok authorities →
        (∃ s, ResolveDnsQuery w h req authorities (getNetProtocol remoteIsTCP) t cache =
          Except.ok s) ∧
        ∀ (rq : Msg) (netProtocol : String) (t1 : Nat),
          ∃ ex, exchange w.up rq authorities netProtocol t1 = Except.ok ex ∧
            ∀ a ∈ ex.attempts, a.nsIdx < authorities.length := by
  cases hqs : req.Question with
  | nil => exact absurd hqs hq
  | cons q0 rest =>
    have hres : ∀ authorities, LeadAuthority h.Authorities q0.Name = Except.ok authorities →
        ∃ s, ResolveDnsQuery w h req authorities (getNetProtocol remoteIsTCP) t cache =
          Except.ok s := by
      intro authorities hlead
      have hne := LeadAuthority_ne_nil h.Authorities authorities q0.Name hlead
      obtain ⟨flow, s, hrun, _, _⟩ :=
        resolveQuestions_inv w h req authorities (getNetProtocol remoteIsTCP) hne
          req.Question _ (running_init req t cache hcache)
      refine ⟨s, ?_⟩
      simp only [ResolveDnsQuery, hrun]
    constructor
    · unfold ServeDNS
      rw [hqs]
      simp only [List.getElem?_cons_zero]
      cases hlead : LeadAuthority h.Authorities q0.Name with
      | error e => exact ⟨none, rfl⟩
      | ok authorities =>
        obtain ⟨s, hs⟩ := hres authorities hlead
        refine ⟨some s, ?_⟩
        simp only [hs]
    · refine ⟨q0, by simp, ?_⟩
      intro authorities hlead
      refine ⟨?_, ?_⟩
      · exact hres authorities hlead
      · intro rq netProtocol t1
        exact exchange_in_bounds w.up rq authorities netProtocol t1
          (LeadAuthority_ne_nil h.Authorities authorities q0.Name hlead)

/-- Witness of C9 (amended): the sample query, with one question, to the
sample handler over an upstream that is down: a reply is written. -/
theorem ServeDNS_no_fault_with_question_witness :
    sampleQuery.Question ≠ [] ∧ Cache.noNil [] ∧
    ((ServeDNS sampleWorld sampleHandler false sampleQuery 0 []).map
        (fun r => r.map (fun s => s.dnsResp.Rcode)) = Except.ok (some RcodeNameError)) ∧
    ∃ r, ServeDNS sampleWorld sampleHandler false sampleQuery 0 [] = Except.ok r :=
  ⟨by decide, fun _ hkv => (by cases hkv), by rfl,
    (ServeDNS_no_fault_with_question sampleWorld sampleHandler false sampleQuery 0 []
      (by decide) (fun _ hkv => (by cases hkv))).1⟩

/-- The reverse-lookup stage consults `FindReverse` for a question of any
type whose lower-cased name ends in `.ip6.arpa.`. -/
theorem reverseStage_ip6_any_type (w : World) (h : DnsHandler) (q : Question) (s : Loop)
    (hname : HasSuffix (w.lib.ToLower q.Name) ".ip6.arpa." = true) :
    (reverseStage w h q (w.lib.ToLower q.Name) s).loop.events =
      s.events ++ [Event.findReverse (w.lib.ToLower q.Name)] := by
  unfold reverseStage
  rw [if_pos (Or.inr hname)]
  dsimp only
  split <;> rfl

/-- The object that `NewHostsfile` returns carries the zero fingerprint: the
initial load does not record the modification time and the size. -/
theorem NewHostsfile_stamp (fs : FileSystem) (newHostlist : List Nat → hostlist)
    (config : Config) (h : Hostsfile) (started : Bool)
    (hnew : NewHostsfile fs newHostlist config = Except.ok (h, started)) :
    h.file.mtime = 0 ∧ h.file.size = 0 := by
  unfold NewHostsfile at hnew
  dsimp only at hnew
  split at hnew
  · cases hnew; exact ⟨rfl, rfl⟩
  · unfold Hostsfile.loadHostEntries at hnew
    dsimp only at hnew
    cases hread : fs.ReadFile 0 config.Path with
    | error e => rw [hread] at hnew; cases hnew
    | ok data => rw [hread] at hnew; cases hnew; exact ⟨rfl, rfl⟩

/-- A tick at which the fingerprint of the file equals the poller's copy
changes nothing and does not read the file. -/
theorem monitorTick_unchanged (fs : FileSystem) (newHostlist : List Nat → hostlist)
    (k : Nat) (m : Monitor)
    (hstat : fs.hostsFileMetadata k m.hf.path = Except.ok (m.hf.mtime, m.hf.size)) :
    monitorTick fs newHostlist k m = m := by
  unfold monitorTick
  rw [hstat]
  simp

/-- A tick at which the fingerprint of the file differs from the poller's
copy reads the file exactly once and records the new fingerprint. -/
theorem monitorTick_changed (fs : FileSystem) (newHostlist : List Nat → hostlist)
    (k : Nat) (m : Monitor) (mtime size : Int)
    (hstat : fs.hostsFileMetadata k m.hf.path = Except.ok (mtime, size))
    (hdiff : ¬ (m.hf.mtime = mtime ∧ m.hf.size = size)) :
    (monitorTick fs newHostlist k m).reads = m.reads + 1 ∧
      (monitorTick fs newHostlist k m).hf.mtime = mtime ∧
      (monitorTick fs newHostlist k m).hf.size = size := by
  unfold monitorTick
  rw [hstat]
  dsimp only
  rw [if_neg hdiff]
  exact ⟨rfl, rfl, rfl⟩

end DnsProxy
